import Mathlib

/-!
# reaper-video-pipeline: the file-mediated command bridge

A shallow embedding of `reaper-extension/src/reaper_video_fx_bridge.cpp`.

* A `std::string` is the list of its `char`s (`Str`).  The scanning code only
  ever compares a `char` against ASCII constants, so one `Char` of the model
  stands for one byte of the program; a non-ASCII letter in a message literal
  stands for its UTF-8 bytes, which no code path inspects.
* The host project is explicit state (`Project`, `Host`) passed through the
  handlers; the file operations of a dispatch cycle succeed or fail as an
  `IoOutcome` says.
* A loop over positions `pos, pos + 1, ...` of a string is a recursion over the
  suffix that starts at `pos`, carrying the position along.
* `size_t` positions are `Nat`, `int` is `Int` with the 32-bit range checked
  where the program checks it (`std::stoi`).
-/

namespace ReaperBridge

/-- A `std::string`: the sequence of its chars. -/
abbrev Str := List Char

/-! ## std::string primitives used by the codec -/

/-- Loop of `std::string::find(char, pos)`: `i` is the position of the head of the suffix. -/
def findCharAux (c : Char) : Str → Nat → Option Nat
  | [], _ => none
  | x :: xs, i => if x = c then some i else findCharAux c xs (i + 1)

/-- The call `s.find(c, pos)`; `none` is `npos`. -/
def findChar (s : Str) (c : Char) (pos : Nat) : Option Nat :=
  findCharAux c (s.drop pos) pos

/-- Loop of `std::string::find(needle, pos)`. -/
def findStrAux (needle : Str) : Str → Nat → Option Nat
  | [], i => if needle = [] then some i else none
  | x :: xs, i =>
    if needle.isPrefixOf (x :: xs) then some i else findStrAux needle xs (i + 1)

/-- The call `s.find(needle, pos)`; `none` is `npos`. -/
def findStr (s needle : Str) (pos : Nat) : Option Nat :=
  if pos > s.length then none else findStrAux needle (s.drop pos) pos

/-- The call `s.substr(pos, len)` for `pos ≤ s.size()`. -/
def substr (s : Str) (pos len : Nat) : Str :=
  (s.drop pos).take len

/-- A `while (pos < s.size() && p(s[pos])) pos++;` loop over the suffix at `i`. -/
def scanAux (p : Char → Bool) : Str → Nat → Nat
  | [], i => i
  | x :: xs, i => if p x then scanAux p xs (i + 1) else i

/-- Position reached by `while (pos < s.size() && p(s[pos])) pos++;`. -/
def scanWhile (p : Char → Bool) (s : Str) (pos : Nat) : Nat :=
  scanAux p (s.drop pos) pos

/-- Decimal digit test `c >= '0' && c <= '9'`. -/
def isDigit (c : Char) : Bool :=
  decide ('0'.toNat ≤ c.toNat) && decide (c.toNat ≤ '9'.toNat)

/-- The whitespace skipped by `JsonGetInt`: space, tab, CR, LF. -/
def isJsonWs (c : Char) : Bool :=
  c = ' ' || c = '\t' || c = '\r' || c = '\n'

/-- The chars scanned as number text by `JsonGetInt`: `-` and decimal digits. -/
def isNumChar (c : Char) : Bool :=
  c = '-' || isDigit c

/-- C `isspace` in the "C" locale, as `strtol` uses it. -/
def isSpaceC (c : Char) : Bool :=
  c = ' ' || c = '\t' || c = '\n' || c = Char.ofNat 11 || c = Char.ofNat 12 || c = '\r'

/-- Value of a decimal digit char. -/
def digitVal (c : Char) : Nat := c.toNat - '0'.toNat

/-- Value of a run of decimal digits, most significant first. -/
def digitsVal (ds : Str) : Nat :=
  ds.foldl (fun acc c => acc * 10 + digitVal c) 0

/-- Lower bound of `int`. -/
def INT_MIN : Int := -2147483648

/-- Upper bound of `int`. -/
def INT_MAX : Int := 2147483647

/-- The optional sign `strtol` accepts: whether it is `-`, and the text after it. -/
def stripSign (t : Str) : Bool × Str :=
  match t with
  | '-' :: r => (true, r)
  | '+' :: r => (false, r)
  | _ => (false, t)

/-- The call `std::stoi(s)` (base 10): skip `isspace`, an optional sign, then the
longest run of digits; `none` stands for both exceptions (`invalid_argument`
when there is no digit, `out_of_range` when the value does not fit `int`). -/
def stoi (s : Str) : Option Int :=
  let t := s.dropWhile isSpaceC
  let signed := stripSign t
  let ds := signed.2.takeWhile isDigit
  if ds = [] then none
  else
    let v : Int := if signed.1 then -(digitsVal ds : Int) else (digitsVal ds : Int)
    if INT_MIN ≤ v ∧ v ≤ INT_MAX then some v else none

/-- The call `std::to_string(n)` for an `int`. -/
def to_string (n : Int) : Str :=
  if n < 0 then '-' :: Nat.toDigits 10 n.natAbs else Nat.toDigits 10 n.natAbs

/-! ## Codec -/

/-- The needle built by `JsonGetString` and `JsonGetInt`: the key between double quotes. -/
def quoted (key : Str) : Str := '"' :: (key ++ ['"'])

/-- Source: `JsonGetString`, lines 124-140. -/
def JsonGetString (json key : Str) : Option Str :=
  let needle := quoted key
  match findStr json needle 0 with
  | none => none
  | some pos =>
    match findChar json ':' (pos + needle.length) with
    | none => none
    | some pos =>
      match findChar json '"' pos with
      | none => none
      | some pos =>
        match findChar json '"' (pos + 1) with
        | none => none
        | some e => some (substr json (pos + 1) (e - (pos + 1)))

/-- Source: `JsonGetInt`, lines 142-167. -/
def JsonGetInt (json key : Str) : Option Int :=
  let needle := quoted key
  match findStr json needle 0 with
  | none => none
  | some pos =>
    match findChar json ':' (pos + needle.length) with
    | none => none
    | some pos =>
      let pos := scanWhile isJsonWs json (pos + 1)
      let e := scanWhile isNumChar json pos
      if e = pos then none
      else stoi (substr json pos (e - pos))

/-- Source: `JsonEscape`, lines 169-186. -/
def JsonEscape : Str → Str
  | [] => []
  | c :: s =>
    if c = '\\' then '\\' :: '\\' :: JsonEscape s
    else if c = '"' then '\\' :: '"' :: JsonEscape s
    else if c = '\n' then '\\' :: 'n' :: JsonEscape s
    else if c = '\r' then '\\' :: 'r' :: JsonEscape s
    else if c = '\t' then '\\' :: 't' :: JsonEscape s
    else c :: JsonEscape s

/-- Source: `JsonUnescapeSimple`, lines 188-216.  The head of the list is `s[i]`;
`i++` inside the switch skips `s[i + 1]` as well. -/
def JsonUnescapeSimple : Str → Str
  | [] => []
  | [c] => [c]
  | c :: n :: rest =>
    if c ≠ '\\' then c :: JsonUnescapeSimple (n :: rest)
    else if n = '\\' then '\\' :: JsonUnescapeSimple rest
    else if n = '"' then '"' :: JsonUnescapeSimple rest
    else if n = 'n' then '\n' :: JsonUnescapeSimple rest
    else if n = 'r' then '\r' :: JsonUnescapeSimple rest
    else if n = 't' then '\t' :: JsonUnescapeSimple rest
    else if n = '/' then '/' :: JsonUnescapeSimple rest
    else c :: JsonUnescapeSimple (n :: rest)

/-- Source: `MakeError`, lines 218-221. -/
def MakeError (msg : Str) : Str :=
  "\x7b\"success\":false,\"message\":\"".toList ++ JsonEscape msg ++ "\"\x7d".toList

/-- Source: `MakeOk`, lines 223-226. -/
def MakeOk (msg : Str) : Str :=
  "\x7b\"success\":true,\"message\":\"".toList ++ JsonEscape msg ++ "\"\x7d".toList

/-! ## Host project model

The host (track, media item and project accessors, the media insertion and the
render action) is an external collaborator.  A `MediaTrack*` is the position of
the track in the project, a `MediaItem*` the position of the item on its track.
`double` values are rationals: the handlers only add two of them and compare.
-/

/-- A media item: `D_POSITION` and `D_LENGTH`. -/
structure MediaItem where
  position : ℚ
  length : ℚ
  deriving DecidableEq

/-- A track: the name `GetTrackName` reports (`none` when it reports failure),
`B_MUTE`, the selection flag, and the items in order. -/
structure MediaTrack where
  name : Option Str
  mute : Bool
  selected : Bool
  items : List MediaItem
  deriving DecidableEq

/-- The project state the handlers read or write.  `renderFile` and `renderPattern`
are the host's `RENDER_FILE` and `RENDER_PATTERN` strings: C strings that fit the
4096-char buffers `CmdRenderTrack` reads them into. -/
structure Project where
  tracks : List MediaTrack
  editCursor : ℚ
  timeSelStart : ℚ
  timeSelEnd : ℚ
  renderFile : Str
  renderPattern : Str
  renderBoundsFlag : ℚ
  renderSettings : ℚ
  deriving DecidableEq

/-- Host state: the project and, as a record of the render action, the project
state at each invocation of `Main_OnCommand(42230, 0)`, oldest first. -/
structure Host where
  proj : Project
  renders : List Project
  deriving DecidableEq

/-- What the bridge cannot see into: the effect of `InsertMedia(file, 0)` and of
the render action on the project, and the platform's
`std::filesystem::path::parent_path` and `stem`. -/
structure Env where
  insertMedia : Str → Project → Project
  renderAction : Project → Project
  parent_path : Str → Str
  stem : Str → Str

/-- A `std::string` seen through `c_str()` / a char buffer read as a C string. -/
def cstr (s : Str) : Str := s.takeWhile (fun c => c ≠ Char.ofNat 0)

/-- Host: `CountTracks(nullptr)`. -/
def CountTracks (p : Project) : Nat := p.tracks.length

/-- Host: `GetTrack(nullptr, idx)`; `none` is the null pointer. -/
def GetTrack (p : Project) (idx : Int) : Option Nat :=
  if 0 ≤ idx ∧ idx < (p.tracks.length : Int) then some idx.toNat else none

/-- Apply `f` to the track behind handle `t`. -/
def updTrack (p : Project) (t : Nat) (f : MediaTrack → MediaTrack) : Project :=
  { p with tracks := p.tracks.modify f t }

/-- Host: `GetTrackName(track, buf, buf_sz)`: the flag returned and the buffer as a C
string.  The host writes at most `buf_sz` chars, the closing NUL included, so a longer
name arrives cut to its first `buf_sz - 1` chars. -/
def GetTrackName (p : Project) (t : Nat) (buf_sz : Nat) : Bool × Str :=
  match p.tracks[t]? with
  | some tr =>
    match tr.name with
    | some nm => (true, (cstr nm).take (buf_sz - 1))
    | none => (false, [])
  | none => (false, [])

/-- Host: `SetOnlyTrackSelected(track)`. -/
def SetOnlyTrackSelected (p : Project) (t : Nat) : Project :=
  { p with tracks := p.tracks.mapIdx (fun i tr => { tr with selected := decide (i = t) }) }

/-- Host: `SetEditCurPos(time, false, false)`. -/
def SetEditCurPos (p : Project) (time : ℚ) : Project :=
  { p with editCursor := time }

/-- Host: `CountTrackMediaItems(track)`. -/
def CountTrackMediaItems (p : Project) (t : Nat) : Nat :=
  match p.tracks[t]? with
  | some tr => tr.items.length
  | none => 0

/-- Host: `GetTrackMediaItem(track, i)`; `none` is the null pointer. -/
def GetTrackMediaItem (p : Project) (t : Nat) (i : Nat) : Option Nat :=
  match p.tracks[t]? with
  | some tr => if i < tr.items.length then some i else none
  | none => none

/-- Host: `DeleteTrackMediaItem(track, item)`. -/
def DeleteTrackMediaItem (p : Project) (t : Nat) (item : Nat) : Project :=
  updTrack p t (fun tr => { tr with items := tr.items.eraseIdx item })

/-- The item parameters `CmdRenderTrack` reads. -/
inductive ItemInfoKey where
  | D_POSITION
  | D_LENGTH
  deriving DecidableEq

/-- The track parameter `CmdRenderTrack` reads and writes. -/
inductive TrackInfoKey where
  | B_MUTE
  deriving DecidableEq

/-- The project strings `CmdRenderTrack` reads and writes. -/
inductive ProjectStringKey where
  | RENDER_FILE
  | RENDER_PATTERN
  deriving DecidableEq

/-- The project values `CmdRenderTrack` writes. -/
inductive ProjectInfoKey where
  | RENDER_BOUNDSFLAG
  | RENDER_SETTINGS
  deriving DecidableEq

/-- Host: `GetMediaItemInfo_Value(item, key)`; the item is named by its track and position. -/
def GetMediaItemInfo_Value (p : Project) (t item : Nat) (key : ItemInfoKey) : ℚ :=
  match p.tracks[t]? with
  | some tr =>
    match tr.items[item]? with
    | some it =>
      match key with
      | .D_POSITION => it.position
      | .D_LENGTH => it.length
    | none => 0
  | none => 0

/-- Host: `GetMediaTrackInfo_Value(track, "B_MUTE")`. -/
def GetMediaTrackInfo_Value (p : Project) (t : Nat) (_key : TrackInfoKey) : ℚ :=
  match p.tracks[t]? with
  | some tr => if tr.mute then 1 else 0
  | none => 0

/-- Host: `SetMediaTrackInfo_Value(track, "B_MUTE", v)`. -/
def SetMediaTrackInfo_Value (p : Project) (t : Nat) (_key : TrackInfoKey) (v : ℚ) : Project :=
  updTrack p t (fun tr => { tr with mute := decide (v ≠ 0) })

/-- Host: `GetSet_LoopTimeRange(true, false, &start, &end, false)`: set the time selection. -/
def GetSet_LoopTimeRange (p : Project) (s e : ℚ) : Project :=
  { p with timeSelStart := s, timeSelEnd := e }

/-- Host: `GetSetProjectInfo_String(nullptr, key, buf, false)`: the string read into `buf`. -/
def GetProjectInfo_String (p : Project) (key : ProjectStringKey) : Str :=
  match key with
  | .RENDER_FILE => p.renderFile
  | .RENDER_PATTERN => p.renderPattern

/-- Host: `GetSetProjectInfo_String(nullptr, key, value, true)`; the host reads `value`
as a C string. -/
def SetProjectInfo_String (p : Project) (key : ProjectStringKey) (value : Str) : Project :=
  match key with
  | .RENDER_FILE => { p with renderFile := cstr value }
  | .RENDER_PATTERN => { p with renderPattern := cstr value }

/-- Host: `GetSetProjectInfo(nullptr, key, value, true)`. -/
def SetProjectInfo (p : Project) (key : ProjectInfoKey) (value : ℚ) : Project :=
  match key with
  | .RENDER_BOUNDSFLAG => { p with renderBoundsFlag := value }
  | .RENDER_SETTINGS => { p with renderSettings := value }

/-- Host: `Main_OnCommand(42230, 0)`: render using the most recent settings. -/
def Main_OnCommand_42230 (env : Env) (h : Host) : Host :=
  { proj := env.renderAction h.proj, renders := h.renders ++ [h.proj] }

/-- A `for (int i = 0; i < n; i++)` loop with body `body i` over a state. -/
def forRange {σ : Type} (n : Nat) (body : Nat → σ → σ) (init : σ) : σ :=
  (List.range n).foldl (fun st i => body i st) init

/-! ## Handlers -/

/-- Loop body of `MakeTracks`, lines 235-249: the state is `json` and `first`. -/
def MakeTracksBody (p : Project) (i : Nat) (st : Str × Bool) : Str × Bool :=
  let got : Bool × Str :=
    match GetTrack p (i : Int) with
    | some t => GetTrackName p t 512
    | none => (false, [])
  let name : Str :=
    if got.1 && decide (got.2 ≠ []) then got.2 else "Track ".toList ++ to_string ((i : Int) + 1)
  let json := if st.2 then st.1 else st.1 ++ ",".toList
  (json ++ "\x7b\"index\":".toList ++ to_string (i : Int) ++ ",\"name\":\"".toList
      ++ JsonEscape name ++ "\"\x7d".toList, false)

/-- Source: `MakeTracks`, lines 228-253. -/
def MakeTracks (p : Project) : Str :=
  let st := forRange (CountTracks p) (MakeTracksBody p)
    ("\x7b\"success\":true,\"tracks\":[".toList, true)
  st.1 ++ "]\x7d".toList

/-- Source: `CmdLoadAudio`, lines 255-271. -/
def CmdLoadAudio (env : Env) (trackIndex : Int) (audioPath : Str) (h : Host) : Str × Host :=
  match GetTrack h.proj trackIndex with
  | none => (MakeError "Track bulunamadı".toList, h)
  | some track =>
    let p1 := SetOnlyTrackSelected h.proj track
    let p2 := SetEditCurPos p1 0
    let beforeCount := CountTrackMediaItems p2 track
    let p3 := env.insertMedia (cstr audioPath) p2
    let afterCount := CountTrackMediaItems p3 track
    if afterCount > beforeCount then (MakeOk "Ses yüklendi".toList, { h with proj := p3 })
    else (MakeError "Ses yüklenemedi".toList, { h with proj := p3 })

/-- The `while` loop of `CmdClearTrack`, lines 279-285.  It terminates because
`DeleteTrackMediaItem` takes the item off the track. -/
def clearLoop (t : Nat) (p : Project) : Project :=
  if 0 < CountTrackMediaItems p t then
    match hitem : GetTrackMediaItem p t 0 with
    | none => p
    | some item =>
      have _hless : CountTrackMediaItems (DeleteTrackMediaItem p t item) t
          < CountTrackMediaItems p t := by
        unfold GetTrackMediaItem at hitem
        unfold CountTrackMediaItems DeleteTrackMediaItem updTrack
        cases ht : p.tracks[t]? with
        | none => simp [ht] at hitem
        | some tr =>
          simp only [ht] at hitem
          split at hitem
          · rename_i hlen
            simp only [Option.some.injEq] at hitem
            subst hitem
            simp [List.getElem?_modify, ht, List.length_eraseIdx, hlen]
          · simp at hitem
      clearLoop t (DeleteTrackMediaItem p t item)
  else p
termination_by CountTrackMediaItems p t

/-- Source: `CmdClearTrack`, lines 273-288. -/
def CmdClearTrack (trackIndex : Int) (h : Host) : Str × Host :=
  match GetTrack h.proj trackIndex with
  | none => (MakeError "Track bulunamadı".toList, h)
  | some track => (MakeOk "Track temizlendi".toList, { h with proj := clearLoop track h.proj })

/-- Loop body of lines 300-307: the state is `originalMutes` and the project. -/
def muteBody (trackIndex : Int) (i : Nat) (st : List ℚ × Project) : List ℚ × Project :=
  match GetTrack st.2 (i : Int) with
  | none => st
  | some t =>
    (st.1.set i (GetMediaTrackInfo_Value st.2 t .B_MUTE),
     SetMediaTrackInfo_Value st.2 t .B_MUTE (if (i : Int) = trackIndex then 0 else 1))

/-- Loop body of lines 311-321: the state is `maxEnd`. -/
def maxEndBody (p : Project) (track : Nat) (i : Nat) (maxEnd : ℚ) : ℚ :=
  match GetTrackMediaItem p track i with
  | none => maxEnd
  | some item =>
    let itemStart := GetMediaItemInfo_Value p track item .D_POSITION
    let itemLen := GetMediaItemInfo_Value p track item .D_LENGTH
    let itemEnd := itemStart + itemLen
    if itemEnd > maxEnd then itemEnd else maxEnd

/-- Loop body of lines 325-331 and 364-370: write `originalMutes[i]` back. -/
def restoreBody (originalMutes : List ℚ) (i : Nat) (p : Project) : Project :=
  match GetTrack p (i : Int) with
  | none => p
  | some t => SetMediaTrackInfo_Value p t .B_MUTE (originalMutes.getD i 0)

/-- Source: `CmdRenderTrack`, lines 290-382. -/
def CmdRenderTrack (env : Env) (trackIndex : Int) (outputPath : Str) (h : Host) : Str × Host :=
  match GetTrack h.proj trackIndex with
  | none => (MakeError "Track bulunamadı".toList, h)
  | some track =>
    let trackCount := CountTracks h.proj
    let st := forRange trackCount (muteBody trackIndex) (List.replicate trackCount 0, h.proj)
    let originalMutes := st.1
    let p1 := st.2
    let itemCount := CountTrackMediaItems p1 track
    let maxEnd := forRange itemCount (maxEndBody p1 track) 0
    if maxEnd ≤ 0 then
      (MakeError "Track\x27te ses bulunamadı".toList,
        { h with proj := forRange trackCount (restoreBody originalMutes) p1 })
    else
      let p2 := GetSet_LoopTimeRange p1 0 maxEnd
      let origRenderFile := GetProjectInfo_String p2 .RENDER_FILE
      let origRenderPattern := GetProjectInfo_String p2 .RENDER_PATTERN
      let outDir := env.parent_path outputPath
      let outName := env.stem outputPath
      let p3 := SetProjectInfo_String p2 .RENDER_FILE outDir
      let p4 := SetProjectInfo_String p3 .RENDER_PATTERN outName
      let p5 := SetProjectInfo p4 .RENDER_BOUNDSFLAG 2
      let p6 := SetProjectInfo p5 .RENDER_SETTINGS 0
      let h7 := Main_OnCommand_42230 env { h with proj := p6 }
      let p8 := SetProjectInfo_String h7.proj .RENDER_FILE origRenderFile
      let p9 := SetProjectInfo_String p8 .RENDER_PATTERN origRenderPattern
      let p10 := forRange trackCount (restoreBody originalMutes) p9
      let p11 := GetSet_LoopTimeRange p10 0 0
      ("\x7b\"success\":true,\"message\":\"".toList ++ JsonEscape outputPath
          ++ "\",\"outputPath\":\"".toList ++ JsonEscape outputPath ++ "\"\x7d".toList,
        { h7 with proj := p11 })

/-! ## Channel and dispatcher -/

/-- The files of the channel directory: `command.json`, `response.json`, and the
sibling `response.json.tmp`; `none` is a file that does not exist. -/
structure Files where
  command : Option Str
  response : Option Str
  responseTmp : Option Str
  deriving DecidableEq

/-- Outcome of each file operation of one cycle that can fail: opening the command
file for reading; opening the temporary file; writing and flushing it (on failure
`tmpWritten` chars reached the file); renaming it; removing it; removing the
command file. -/
structure IoOutcome where
  readOk : Bool
  tmpOpenOk : Bool
  tmpWriteOk : Bool
  tmpWritten : Nat
  renameOk : Bool
  removeTmpOk : Bool
  deleteOk : Bool
  deriving DecidableEq

/-- Source: `ReadFile`, lines 74-82, on the command file. -/
def ReadFile (io : IoOutcome) (file : Option Str) : Option Str :=
  match file with
  | none => none
  | some content => if io.readOk then some content else none

/-- Source: `WriteFileAtomic`, lines 84-116, on the response file. -/
def WriteFileAtomic (io : IoOutcome) (content : Str) (fs : Files) : Bool × Files :=
  if !io.tmpOpenOk then (false, fs)
  else if !io.tmpWriteOk then
    (false, { fs with responseTmp := some (content.take io.tmpWritten) })
  else if !io.renameOk then
    (false, { fs with responseTmp := if io.removeTmpOk then none else some content })
  else (true, { fs with response := some content, responseTmp := none })

/-- Source: `TryDeleteFile`, lines 118-122, on the command file. -/
def TryDeleteFile (io : IoOutcome) (fs : Files) : Files :=
  if io.deleteOk then { fs with command := none } else fs

/-- Everything a dispatch cycle can read or write. -/
structure World where
  g_processing : Bool
  files : Files
  host : Host
  deriving DecidableEq

/-- Source: `ProcessOneCommand`, lines 406-449: decode the command and route it. -/
def routeCommand (env : Env) (content : Str) (h : Host) : Str × Host :=
  let command := (JsonGetString content "command".toList).getD []
  if command = "PING".toList then (MakeOk "pong".toList, h)
  else if command = "GET_TRACKS".toList then (MakeTracks h.proj, h)
  else if command = "LOAD_AUDIO".toList then
    let trackIndex := (JsonGetInt content "trackIndex".toList).getD (-1)
    let audioPath := JsonUnescapeSimple ((JsonGetString content "audioPath".toList).getD [])
    if trackIndex < 0 ∨ audioPath = [] then (MakeError "Eksik parametre".toList, h)
    else CmdLoadAudio env trackIndex audioPath h
  else if command = "CLEAR_TRACK".toList then
    let trackIndex := (JsonGetInt content "trackIndex".toList).getD (-1)
    if trackIndex < 0 then (MakeError "Eksik parametre".toList, h)
    else CmdClearTrack trackIndex h
  else if command = "RENDER_TRACK".toList then
    let trackIndex := (JsonGetInt content "trackIndex".toList).getD (-1)
    let outputPath := JsonUnescapeSimple ((JsonGetString content "outputPath".toList).getD [])
    if trackIndex < 0 ∨ outputPath = [] then (MakeError "Eksik parametre".toList, h)
    else CmdRenderTrack env trackIndex outputPath h
  else (MakeError ("Bilinmeyen komut: ".toList ++ command), h)

/-- Source: `ProcessOneCommand`, lines 384-454. -/
def ProcessOneCommand (env : Env) (io : IoOutcome) (w : World) : World :=
  if w.g_processing then w
  else
    match w.files.command with
    | none => { w with g_processing := false }
    | some _ =>
      match ReadFile io w.files.command with
      | none => { w with g_processing := false }
      | some content =>
        if content = [] then { w with g_processing := false }
        else
          let r := routeCommand env content w.host
          let written := WriteFileAtomic io r.1 w.files
          { g_processing := false, files := TryDeleteFile io written.2, host := r.2 }

/-! ## Concrete inputs used by the witnesses -/

/-- An environment in which media insertion appends one item of length 3 to the
selected tracks, the render action leaves the project alone, and paths split at
the last `/` and the last `.`. -/
def sampleEnv : Env where
  insertMedia := fun _ p =>
    { p with tracks := p.tracks.map (fun tr =>
        if tr.selected then { tr with items := tr.items ++ [⟨0, 3⟩] } else tr) }
  renderAction := fun p => p
  parent_path := fun s => (s.reverse.dropWhile (fun c => c ≠ '/')).tail.reverse
  stem := fun s =>
    ((s.reverse.takeWhile (fun c => c ≠ '/')).dropWhile (fun c => c ≠ '.')).tail.reverse

/-- Every file operation succeeds. -/
def ioAllOk : IoOutcome :=
  { readOk := true, tmpOpenOk := true, tmpWriteOk := true, tmpWritten := 0,
    renameOk := true, removeTmpOk := true, deleteOk := true }

/-- A project with two tracks: the first holds one item, the second is muted and empty. -/
def sampleProject : Project :=
  { tracks := [⟨some "Drums".toList, false, false, [⟨1, 2⟩]⟩, ⟨none, true, true, []⟩],
    editCursor := 5, timeSelStart := 1, timeSelEnd := 4,
    renderFile := "/old".toList, renderPattern := "mix".toList,
    renderBoundsFlag := 1, renderSettings := 3 }

/-- Host state around `sampleProject`, before any render. -/
def sampleHost : Host := { proj := sampleProject, renders := [] }

/-- The command document of the PING request. -/
def pingDoc : Str := "\x7b\"command\":\"PING\"\x7d".toList

/-- The response text of a PING cycle. -/
def pongText : Str := "\x7b\"success\":true,\"message\":\"pong\"\x7d".toList

/-- An idle world holding the PING request and an older response. -/
def pingWorld : World :=
  { g_processing := false,
    files := { command := some pingDoc, response := some "old".toList, responseTmp := none },
    host := sampleHost }

/-- The command document of a LOAD_AUDIO request whose path is `a"b`, written with `JsonEscape`. -/
def quotedPathDoc : Str :=
  "\x7b\"command\":\"LOAD_AUDIO\",\"trackIndex\":0,\"audioPath\":\"".toList
    ++ JsonEscape ['a', '"', 'b'] ++ "\"\x7d".toList

/-- The text that follows the `:` after the first `"key"` token (the key-location
steps of `JsonGetInt`, lines 144-151). -/
def valueText (json key : Str) : Option Str :=
  match findStr json (quoted key) 0 with
  | none => none
  | some pos =>
    match findChar json ':' (pos + (quoted key).length) with
    | none => none
    | some pos => some (json.drop (pos + 1))

/-- The spec's `decodeInt` on the text after the colon: skip whitespace, consume an
optional leading `-` and decimal digits; absent if no digit was consumed or the
number is not a bounded (32-bit) integer. -/
def parseIntSpec (t : Str) : Option Int :=
  let v := t.dropWhile isJsonWs
  let neg : Bool := decide (v.head? = some '-')
  let body := if neg then v.tail else v
  let ds := body.takeWhile isDigit
  if ds = [] then none
  else
    let n : Int := if neg then -(digitsVal ds : Int) else (digitsVal ds : Int)
    if INT_MIN ≤ n ∧ n ≤ INT_MAX then some n else none

/-- The document `{"trackIndex":` ++ w ++ decimal(n) ++ `}`. -/
def intDoc (w : Str) (n : Int) : Str :=
  "\x7b\"trackIndex\":".toList ++ w ++ to_string n ++ "\x7d".toList

/-- The items of the track behind handle `t`. -/
def trackItems (p : Project) (t : Nat) : List MediaItem :=
  match p.tracks[t]? with
  | some tr => tr.items
  | none => []

/-- Whether a response document reports failure: it opens with `"success":false`. -/
def reportsFailure (resp : Str) : Bool :=
  ("\x7b\"success\":false,".toList).isPrefixOf resp

/-- The tracks after the first `k` rounds of the mute loop of `CmdRenderTrack`. -/
def mutedTracks (trackIndex : Int) (k : Nat) (tracks : List MediaTrack) : List MediaTrack :=
  tracks.mapIdx (fun i tr => if i < k then { tr with mute := decide ((i : Int) ≠ trackIndex) } else tr)

/-- The snapshot `originalMutes` after the first `k` rounds of the mute loop. -/
def muteSnapshot (k : Nat) (tracks : List MediaTrack) : List ℚ :=
  tracks.mapIdx (fun i tr => if i < k then (if tr.mute then (1 : ℚ) else 0) else 0)

/-- The tracks after the first `k` rounds of a restore loop. -/
def restoredTracks (originalMutes : List ℚ) (k : Nat) (tracks : List MediaTrack) : List MediaTrack :=
  tracks.mapIdx (fun i tr =>
    if i < k then { tr with mute := decide (originalMutes.getD i 0 ≠ 0) } else tr)

/-- A string the host can hold: a C string, without the NUL char. -/
def isCString (s : Str) : Prop := Char.ofNat 0 ∉ s

/-- The project handed to the render action by `CmdRenderTrack` (lines 296-357), for a
target track with audio extent `maxEnd`. -/
def renderInput (env : Env) (trackIndex : Int) (outputPath : Str) (p : Project) (maxEnd : ℚ) :
    Project :=
  { p with
    tracks := mutedTracks trackIndex p.tracks.length p.tracks,
    timeSelStart := 0, timeSelEnd := maxEnd,
    renderFile := cstr (env.parent_path outputPath),
    renderPattern := cstr (env.stem outputPath),
    renderBoundsFlag := 2, renderSettings := 0 }

/-- The success response of `CmdRenderTrack`, lines 376-381. -/
def renderOkText (outputPath : Str) : Str :=
  "\x7b\"success\":true,\"message\":\"".toList ++ JsonEscape outputPath
    ++ "\",\"outputPath\":\"".toList ++ JsonEscape outputPath ++ "\"\x7d".toList

/-- One round of the extent loop of `CmdRenderTrack` on an item. -/
def extentStep (maxEnd : ℚ) (it : MediaItem) : ℚ :=
  if it.position + it.length > maxEnd then it.position + it.length else maxEnd

/-- The extent the loop of `CmdRenderTrack` computes for the track behind `t`. -/
def renderExtent (p : Project) (t : Nat) : ℚ :=
  (trackItems p t).foldl extentStep 0

/-- The response to a command that names a track the project does not have. -/
def trackNotFoundText : Str := MakeError "Track bulunamadı".toList

/-- The rename step of the atomic write fails; every other file operation succeeds. -/
def ioRenameFails : IoOutcome :=
  { readOk := true, tmpOpenOk := true, tmpWriteOk := true, tmpWritten := 0,
    renameOk := false, removeTmpOk := true, deleteOk := true }

/-- A host whose first track is muted and holds no item; the second holds one item. -/
def silentHost : Host :=
  { proj :=
      { tracks := [⟨some "Vox".toList, true, false, []⟩, ⟨none, false, true, [⟨1, 2⟩]⟩],
        editCursor := 5, timeSelStart := 1, timeSelEnd := 4,
        renderFile := "/old".toList, renderPattern := "mix".toList,
        renderBoundsFlag := 1, renderSettings := 3 },
    renders := [] }

/-- The command document of a CLEAR_TRACK request for track 99. -/
def clearDoc99 : Str := "\x7b\"command\":\"CLEAR_TRACK\",\"trackIndex\":99\x7d".toList

/-- The five command names the dispatcher routes. -/
def knownCommands : List Str :=
  ["PING".toList, "GET_TRACKS".toList, "LOAD_AUDIO".toList, "CLEAR_TRACK".toList,
    "RENDER_TRACK".toList]

/-- The decoded `command` field of a command document; empty when the field is missing. -/
def decodedCommand (content : Str) : Str :=
  (JsonGetString content "command".toList).getD []

/-- A command document whose name differs from PING only in case. -/
def lowerPingDoc : Str := "\x7b\"command\":\"ping\"\x7d".toList

/-- An in-flight world: the guard is set while a PING request waits in the command file. -/
def busyWorld : World :=
  { g_processing := true,
    files := { command := some pingDoc, response := some "old".toList, responseTmp := none },
    host := sampleHost }

/-- What the outside does between two ticks: the external process rewrites the files
and the host's own UI changes the project; the guard is not reachable from outside. -/
def betweenTicks (outside : Files → Host → Files × Host) (w : World) : World :=
  { w with files := (outside w.files w.host).1, host := (outside w.files w.host).2 }

/-- A run of ticks from a state: each tick is one `ProcessOneCommand` with its file
outcomes, followed by whatever the outside does before the next tick. -/
def runTicks (env : Env) : List (IoOutcome × (Files → Host → Files × Host)) → World → World
  | [], w => w
  | (io, outside) :: rest, w => runTicks env rest (betweenTicks outside (ProcessOneCommand env io w))

/-- The state at module load: `g_processing = false`. -/
def loadedWorld (fs : Files) (h : Host) : World :=
  { g_processing := false, files := fs, host := h }

/-- The name `MakeTracks` prints for track `i`: what `GetTrackName` left in the
512-char buffer (the first 511 chars of the name, read as a C string), or the label
"Track N" with `N = i + 1` when there is no name or the buffer is empty. -/
def trackLabel (i : Nat) (tr : MediaTrack) : Str :=
  match tr.name with
  | some nm =>
    if (cstr nm).take 511 = [] then "Track ".toList ++ to_string ((i : Int) + 1)
    else (cstr nm).take 511
  | none => "Track ".toList ++ to_string ((i : Int) + 1)

/-- The entry of track `i` in the tracks array, for the name `label`. -/
def trackEntry (i : Nat) (label : Str) : Str :=
  "\x7b\"index\":".toList ++ to_string (i : Int) ++ ",\"name\":\"".toList
    ++ JsonEscape label ++ "\"\x7d".toList

/-- Entries separated by commas. -/
def joinComma : List Str → Str
  | [] => []
  | [e] => e
  | e :: f :: rest => e ++ ",".toList ++ joinComma (f :: rest)

/-- The tracks document for a given choice of the printed names. -/
def tracksDoc (label : Nat → MediaTrack → Str) (p : Project) : Str :=
  "\x7b\"success\":true,\"tracks\":[".toList
    ++ joinComma (p.tracks.mapIdx (fun i tr => trackEntry i (label i tr))) ++ "]\x7d".toList

/-- The name the claim prints for track `i`: the track's whole name, or the label
"Track N" when the name is absent or empty. -/
def fullNameLabel (i : Nat) (tr : MediaTrack) : Str :=
  match tr.name with
  | some nm => if nm = [] then "Track ".toList ++ to_string ((i : Int) + 1) else nm
  | none => "Track ".toList ++ to_string ((i : Int) + 1)

/-- A project with one track whose name has 512 chars. -/
def longNameProject : Project :=
  { sampleProject with tracks := [⟨some (List.replicate 512 'a'), false, false, []⟩] }

/-- Writing and flushing the temporary file fails after three chars; every other file
operation succeeds. -/
def ioWriteFails : IoOutcome :=
  { readOk := true, tmpOpenOk := true, tmpWriteOk := false, tmpWritten := 3,
    renameOk := true, removeTmpOk := true, deleteOk := true }

/-- The channel directory between two requests: an older response, no temporary file. -/
def idleFiles : Files :=
  { command := none, response := some "old".toList, responseTmp := none }

/-- The command document of a GET_TRACKS request. -/
def getTracksDoc : Str := "\x7b\"command\":\"GET_TRACKS\"\x7d".toList

/-- A project without tracks. -/
def emptyProject : Project := { sampleProject with tracks := [] }

/-- Whether a response document begins with a `success` field. -/
def beginsWithSuccess (resp : Str) : Bool :=
  ("\x7b\"success\":true,".toList).isPrefixOf resp
    || ("\x7b\"success\":false,".toList).isPrefixOf resp

/-- A response document that begins with a `success` field followed by a `message`
string field whose value is closed by a double quote. -/
def MessageShaped (resp : Str) : Prop :=
  ∃ body rest : Str,
    resp = "\x7b\"success\":true,\"message\":\"".toList ++ body ++ '"' :: rest
      ∨ resp = "\x7b\"success\":false,\"message\":\"".toList ++ body ++ '"' :: rest

/-- Whether a response document reports success: it opens with `"success":true`. -/
def reportsSuccess (resp : Str) : Bool :=
  ("\x7b\"success\":true,".toList).isPrefixOf resp

/-- The project as `CmdLoadAudio` leaves it just before the insertion request:
the track selected exclusively, the edit cursor at time zero. -/
def loadPrepared (p : Project) (track : Nat) : Project :=
  SetEditCurPos (SetOnlyTrackSelected p track) 0

/-- The item count `CmdLoadAudio` records before the insertion request. -/
def countBeforeInsert (h : Host) (track : Nat) : Nat :=
  CountTrackMediaItems (loadPrepared h.proj track) track

/-- The item count `CmdLoadAudio` reads after the insertion request. -/
def countAfterInsert (env : Env) (audioPath : Str) (h : Host) (track : Nat) : Nat :=
  CountTrackMediaItems (env.insertMedia (cstr audioPath) (loadPrepared h.proj track)) track

/-- An environment whose media insertion does nothing (say, an unreadable file). -/
def deafEnv : Env := { sampleEnv with insertMedia := fun _ p => p }

/-- `e` is the audio extent of `items`: zero when no item ends after time zero,
otherwise the greatest end (position + length) among the items. -/
def IsExtent (items : List MediaItem) (e : ℚ) : Prop :=
  ((∀ it ∈ items, it.position + it.length ≤ 0) ∧ e = 0)
    ∨ (0 < e ∧ (∃ it ∈ items, e = it.position + it.length)
        ∧ ∀ it ∈ items, it.position + it.length ≤ e)

/-- The response of `CmdRenderTrack` for a target track without audio. -/
def noAudioText : Str := MakeError "Track\x27te ses bulunamadı".toList

/-- One removal of the first item of track `t`, as the loop of `CmdClearTrack` does it. -/
def deleteFirst (t : Nat) (p : Project) : Project := DeleteTrackMediaItem p t 0

/-- A host whose first track holds three items. -/
def busyTrackHost : Host :=
  { proj :=
      { sampleProject with
        tracks := [⟨some "Drums".toList, false, false, [⟨0, 1⟩, ⟨1, 2⟩, ⟨4, 1⟩]⟩,
          ⟨none, true, true, [⟨2, 2⟩]⟩] },
    renders := [] }

/-- The states of the channel files after each step of `WriteFileAtomic` that changes
them, in program order (lines 91-115): the temporary file opened and truncated, then
written and flushed, then renamed onto the response file or, when the rename fails,
removed.  No step changes a file when the temporary file cannot be opened. -/
def WriteFileAtomicSteps (io : IoOutcome) (content : Str) (fs : Files) : List Files :=
  if !io.tmpOpenOk then []
  else if !io.tmpWriteOk then
    [{ fs with responseTmp := some [] },
     { fs with responseTmp := some (content.take io.tmpWritten) }]
  else if !io.renameOk then
    [{ fs with responseTmp := some [] }, { fs with responseTmp := some content },
     { fs with responseTmp := if io.removeTmpOk then none else some content }]
  else
    [{ fs with responseTmp := some [] }, { fs with responseTmp := some content },
     { fs with response := some content, responseTmp := none }]

/-- The states of the channel files during one dispatch cycle, in program order: the
state the cycle starts from, the states `WriteFileAtomic` passes through (line 451),
then the state after `TryDeleteFile` (line 452).  A cycle that returns early (lines
387, 396, 403) changes no file. -/
def ProcessOneCommandSteps (env : Env) (io : IoOutcome) (w : World) : List Files :=
  if w.g_processing then [w.files]
  else
    match w.files.command with
    | none => [w.files]
    | some _ =>
      match ReadFile io w.files.command with
      | none => [w.files]
      | some content =>
        if content = [] then [w.files]
        else
          let r := routeCommand env content w.host
          w.files :: (WriteFileAtomicSteps io r.1 w.files
            ++ [TryDeleteFile io (WriteFileAtomic io r.1 w.files).2])

/-! ## Lemmas -/

theorem JsonGetString_nil (key : Str) : JsonGetString [] key = none := by
  simp [JsonGetString, findStr, findStrAux, quoted]

theorem unescape_cons_ne (c : Char) (rest : Str) (hc : c ≠ '\\') :
    JsonUnescapeSimple (c :: rest) = c :: JsonUnescapeSimple rest := by
  cases rest with
  | nil => simp [JsonUnescapeSimple]
  | cons n rest => simp [JsonUnescapeSimple, hc]

theorem unescape_escape_cons (c : Char) (s : Str) :
    JsonUnescapeSimple (JsonEscape (c :: s)) = c :: JsonUnescapeSimple (JsonEscape s) := by
  simp only [JsonEscape]
  split_ifs with h1 h2 h3 h4 h5
  · subst h1; simp [JsonUnescapeSimple]
  · subst h2; simp [JsonUnescapeSimple]
  · subst h3; simp [JsonUnescapeSimple]
  · subst h4; simp [JsonUnescapeSimple]
  · subst h5; simp [JsonUnescapeSimple]
  · exact unescape_cons_ne c _ h1

theorem scanAux_eq (p : Char → Bool) (s : Str) (i : Nat) :
    scanAux p s i = i + (s.takeWhile p).length := by
  induction s generalizing i with
  | nil => simp [scanAux]
  | cons x xs ih =>
    by_cases hx : p x = true
    · simp [scanAux, hx, List.takeWhile_cons, ih]; omega
    · simp [scanAux, hx, List.takeWhile_cons]

theorem take_length_takeWhile (p : Char → Bool) (s : Str) :
    s.take (s.takeWhile p).length = s.takeWhile p := by
  induction s with
  | nil => simp
  | cons x xs ih =>
    by_cases hx : p x = true
    · simp [List.takeWhile_cons, hx, ih]
    · simp [List.takeWhile_cons, hx]

theorem drop_length_takeWhile (p : Char → Bool) (s : Str) :
    s.drop (s.takeWhile p).length = s.dropWhile p := by
  induction s with
  | nil => simp
  | cons x xs ih =>
    by_cases hx : p x = true
    · simp [List.takeWhile_cons, List.dropWhile_cons, hx, ih]
    · simp [List.takeWhile_cons, List.dropWhile_cons, hx]

theorem takeWhile_digit_numChar (s : Str) :
    (s.takeWhile isNumChar).takeWhile isDigit = s.takeWhile isDigit := by
  induction s with
  | nil => simp
  | cons x xs ih =>
    by_cases hd : isDigit x = true
    · have hn : isNumChar x = true := by simp [isNumChar, hd]
      simp [List.takeWhile_cons, hd, hn, ih]
    · by_cases hn : isNumChar x = true
      · simp [List.takeWhile_cons, hd, hn]
      · simp [List.takeWhile_cons, hd, hn]

theorem isDigit_ne_minus (c : Char) (h : isDigit c = true) : c ≠ '-' := by
  intro hc; subst hc; exact absurd h (by decide)

theorem isDigit_ne_plus (c : Char) (h : isDigit c = true) : c ≠ '+' := by
  intro hc; subst hc; exact absurd h (by decide)

theorem isNumChar_not_space (c : Char) (h : isNumChar c = true) : isSpaceC c = false := by
  simp only [isNumChar, Bool.or_eq_true, decide_eq_true_eq] at h
  rcases h with h | h
  · subst h; decide
  · cases hs : isSpaceC c with
    | false => rfl
    | true =>
      simp only [isSpaceC, Bool.or_eq_true, decide_eq_true_eq] at hs
      rcases hs with ((((hs | hs) | hs) | hs) | hs) | hs <;> (subst hs; exact absurd h (by decide))

/-- What `std::stoi` returns on the number text scanned by `JsonGetInt`. -/
theorem stoi_numText (v : Str) (hne : v.takeWhile isNumChar ≠ []) :
    stoi (v.takeWhile isNumChar) =
      (let neg : Bool := decide (v.head? = some '-')
       let body := if neg then v.tail else v
       let ds := body.takeWhile isDigit
       if ds = [] then none
       else
         let n : Int := if neg then -(digitsVal ds : Int) else (digitsVal ds : Int)
         if INT_MIN ≤ n ∧ n ≤ INT_MAX then some n else none) := by
  cases v with
  | nil => simp at hne
  | cons c r =>
    have hc : isNumChar c = true := by
      by_contra hc
      simp [List.takeWhile_cons, hc] at hne
    have hsp : isSpaceC c = false := isNumChar_not_space c hc
    have htw : (c :: r).takeWhile isNumChar = c :: r.takeWhile isNumChar := by
      simp [List.takeWhile_cons, hc]
    rw [htw]
    unfold stoi
    have hdw : (c :: r.takeWhile isNumChar).dropWhile isSpaceC = c :: r.takeWhile isNumChar := by
      simp [List.dropWhile_cons, hsp]
    simp only [hdw]
    by_cases hm : c = '-'
    · subst hm
      simp [stripSign, takeWhile_digit_numChar]
    · have hd : isDigit c = true := by
        simp only [isNumChar, Bool.or_eq_true, decide_eq_true_eq] at hc
        rcases hc with hc | hc
        · exact absurd hc hm
        · exact hc
      have hp : c ≠ '+' := isDigit_ne_plus c hd
      have hds : (c :: r.takeWhile isNumChar).takeWhile isDigit = (c :: r).takeWhile isDigit := by
        rw [← htw, takeWhile_digit_numChar]
      have hss : stripSign (c :: r.takeWhile isNumChar) = (false, c :: r.takeWhile isNumChar) := by
        unfold stripSign
        split
        · rename_i heq; simp only [List.cons.injEq] at heq; exact absurd heq.1 hm
        · rename_i heq; simp only [List.cons.injEq] at heq; exact absurd heq.1 hp
        · rfl
      simp [hss, hds, hm]

/-- `JsonGetInt` is the spec's integer decoder applied to the text after the colon. -/
theorem JsonGetInt_eq_parse (json key t : Str) (ht : valueText json key = some t) :
    JsonGetInt json key = parseIntSpec t := by
  unfold valueText at ht
  unfold JsonGetInt
  cases hf : findStr json (quoted key) 0 with
  | none => simp [hf] at ht
  | some pos =>
    simp only [hf] at ht ⊢
    cases hc : findChar json ':' (pos + (quoted key).length) with
    | none => simp [hc] at ht
    | some q =>
      simp only [hc, Option.some.injEq] at ht ⊢
      subst ht
      simp only [scanWhile, scanAux_eq]
      have hdrop : List.drop (q + 1 + (List.takeWhile isJsonWs (List.drop (q + 1) json)).length) json
          = (List.drop (q + 1) json).dropWhile isJsonWs := by
        rw [← List.drop_drop, drop_length_takeWhile]
      simp only [hdrop, substr, Nat.add_sub_cancel_left, take_length_takeWhile]
      unfold parseIntSpec
      generalize (List.drop (q + 1) json).dropWhile isJsonWs = v
      by_cases hne : v.takeWhile isNumChar = []
      · have : ¬ (0 < (List.takeWhile isNumChar v).length) := by simp [hne]
        simp only [hne, List.length_nil, Nat.add_zero, if_true]
        cases v with
        | nil => simp
        | cons c r =>
          have hc : ¬ isNumChar c = true := by
            intro hc; simp [List.takeWhile_cons, hc] at hne
          have hm : c ≠ '-' := by
            intro h; subst h; exact hc (by decide)
          have hd : ¬ isDigit c = true := by
            intro h; exact hc (by simp [isNumChar, h])
          simp [hm, List.takeWhile_cons, hd]
      · have hpos : 0 < (List.takeWhile isNumChar v).length := List.length_pos.mpr hne
        have hneq : ¬ (q + 1 + (List.takeWhile isJsonWs (List.drop (q + 1) json)).length
            + (List.takeWhile isNumChar v).length
            = q + 1 + (List.takeWhile isJsonWs (List.drop (q + 1) json)).length) := by omega
        simp only [hneq, if_false]
        exact stoi_numText v hne

theorem digitChar_isDigit (k : Nat) (hk : k < 10) :
    isDigit (Nat.digitChar k) = true ∧ digitVal (Nat.digitChar k) = k := by
  interval_cases k <;> decide

theorem digitsVal_append_single (pre : Str) (d : Char) :
    digitsVal (pre ++ [d]) = digitsVal pre * 10 + digitVal d := by
  simp [digitsVal, List.foldl_append]

/-- The decimal digits `Nat.toDigitsCore` puts in front of its accumulator. -/
theorem toDigitsCore_spec (fuel : Nat) : ∀ (n : Nat) (ds : Str), n < fuel →
    ∃ pre : Str, Nat.toDigitsCore 10 fuel n ds = pre ++ ds ∧ pre ≠ []
      ∧ (∀ c ∈ pre, isDigit c = true) ∧ digitsVal pre = n := by
  induction fuel with
  | zero => intro n ds h; omega
  | succ fuel ih =>
    intro n ds hn
    have hmod : n % 10 < 10 := Nat.mod_lt n (by decide)
    obtain ⟨hdig, hval⟩ := digitChar_isDigit (n % 10) hmod
    by_cases hz : n / 10 = 0
    · refine ⟨[Nat.digitChar (n % 10)], ?_, by simp, ?_, ?_⟩
      · simp [Nat.toDigitsCore, hz]
      · intro c hc
        simp only [List.mem_singleton] at hc
        subst hc
        exact hdig
      · have : digitsVal [Nat.digitChar (n % 10)] = digitVal (Nat.digitChar (n % 10)) := by
          simp [digitsVal]
        rw [this, hval]
        omega
    · have hlt : n / 10 < fuel := by omega
      obtain ⟨pre, hpre, hne, hall, hv⟩ := ih (n / 10) (Nat.digitChar (n % 10) :: ds) hlt
      refine ⟨pre ++ [Nat.digitChar (n % 10)], ?_, by simp, ?_, ?_⟩
      · simp [Nat.toDigitsCore, hz, hpre]
      · intro c hc
        rcases List.mem_append.mp hc with hc | hc
        · exact hall c hc
        · simp only [List.mem_singleton] at hc
          subst hc
          exact hdig
      · rw [digitsVal_append_single, hv, hval]
        omega

theorem toDigits_spec (n : Nat) :
    Nat.toDigits 10 n ≠ [] ∧ (∀ c ∈ Nat.toDigits 10 n, isDigit c = true)
      ∧ digitsVal (Nat.toDigits 10 n) = n := by
  obtain ⟨pre, hpre, hne, hall, hv⟩ := toDigitsCore_spec (n + 1) n [] (Nat.lt_succ_self n)
  have h : Nat.toDigits 10 n = pre := by
    simp [Nat.toDigits, hpre]
  rw [h]
  exact ⟨hne, hall, hv⟩

theorem dropWhile_append_all (p : Char → Bool) (w rest : Str) (hw : ∀ c ∈ w, p c = true) :
    (w ++ rest).dropWhile p = rest.dropWhile p := by
  induction w with
  | nil => rfl
  | cons x xs ih =>
    have hx : p x = true := hw x (List.mem_cons_self x xs)
    simp only [List.cons_append, List.dropWhile_cons, hx, if_true]
    exact ih (fun c hc => hw c (List.mem_cons_of_mem x hc))

theorem takeWhile_append_all (p : Char → Bool) (pre : Str) (e : Char) (rest : Str)
    (hpre : ∀ c ∈ pre, p c = true) (he : p e = false) :
    (pre ++ e :: rest).takeWhile p = pre := by
  induction pre with
  | nil => simp [List.takeWhile_cons, he]
  | cons x xs ih =>
    have hx : p x = true := hpre x (List.mem_cons_self x xs)
    simp only [List.cons_append, List.takeWhile_cons, hx, if_true]
    rw [ih (fun c hc => hpre c (List.mem_cons_of_mem x hc))]

theorem isDigit_not_ws (c : Char) (h : isDigit c = true) : isJsonWs c = false := by
  cases hs : isJsonWs c with
  | false => rfl
  | true =>
    simp only [isJsonWs, Bool.or_eq_true, decide_eq_true_eq] at hs
    rcases hs with ((hs | hs) | hs) | hs <;> (subst hs; exact absurd h (by decide))

theorem valueText_intDoc (w : Str) (n : Int) :
    valueText (intDoc w n) "trackIndex".toList = some (w ++ to_string n ++ "\x7d".toList) := by
  simp [valueText, intDoc, findStr, findStrAux, findChar, findCharAux, quoted, List.isPrefixOf]

/-- The spec's decoder reads back the decimal text of a 32-bit integer. -/
theorem parseIntSpec_to_string (w : Str) (n : Int) (hlo : INT_MIN ≤ n) (hhi : n ≤ INT_MAX)
    (hw : ∀ c ∈ w, isJsonWs c = true) :
    parseIntSpec (w ++ to_string n ++ "\x7d".toList) = some n := by
  obtain ⟨hne, hall, hv⟩ := toDigits_spec n.natAbs
  obtain ⟨d, ds, hds⟩ := List.exists_cons_of_ne_nil hne
  have hd : isDigit d = true := hall d (by rw [hds]; exact List.mem_cons_self d ds)
  have hbrace : isDigit '\x7d' = false := by decide
  have htake : (Nat.toDigits 10 n.natAbs ++ ['\x7d']).takeWhile isDigit = Nat.toDigits 10 n.natAbs :=
    takeWhile_append_all isDigit _ '\x7d' [] hall hbrace
  unfold parseIntSpec
  rw [List.append_assoc, dropWhile_append_all isJsonWs w _ hw]
  by_cases hneg : n < 0
  · have hts : to_string n ++ "\x7d".toList = '-' :: (Nat.toDigits 10 n.natAbs ++ ['\x7d']) := by
      simp [to_string, hneg]
    rw [hts]
    have hdw : ('-' :: (Nat.toDigits 10 n.natAbs ++ ['\x7d'])).dropWhile isJsonWs
        = '-' :: (Nat.toDigits 10 n.natAbs ++ ['\x7d']) := by
      simp [List.dropWhile_cons, isJsonWs]
    simp only [hdw, List.head?_cons, decide_True, if_true, List.tail_cons, htake, hne, if_false, hv]
    have hval : -((n.natAbs : Nat) : Int) = n := by omega
    rw [hval]
    simp [hlo, hhi]
  · have hts : to_string n ++ "\x7d".toList = d :: (ds ++ ['\x7d']) := by
      simp [to_string, hneg, hds]
    have htake2 : (d :: (ds ++ ['\x7d'])).takeWhile isDigit = d :: ds := by
      have := htake
      rw [hds] at this
      simpa using this
    rw [hts]
    have hdw : (d :: (ds ++ ['\x7d'])).dropWhile isJsonWs = d :: (ds ++ ['\x7d']) := by
      simp [List.dropWhile_cons, isDigit_not_ws d hd]
    have hdm : d ≠ '-' := isDigit_ne_minus d hd
    have hv2 : digitsVal (d :: ds) = n.natAbs := by rw [← hds]; exact hv
    simp only [hdw, List.head?_cons, Option.some.injEq, hdm, decide_False, Bool.false_eq_true,
      if_false, htake2, hv2]
    have hval : ((n.natAbs : Nat) : Int) = n := by omega
    rw [hval]
    simp [hlo, hhi]

theorem forRange_succ {σ : Type} (n : Nat) (body : Nat → σ → σ) (init : σ) :
    forRange (n + 1) body init = body n (forRange n body init) := by
  simp [forRange, List.range_succ, List.foldl_append]

theorem forRange_zero {σ : Type} (body : Nat → σ → σ) (init : σ) :
    forRange 0 body init = init := by
  simp [forRange]

theorem GetTrack_natCast (p : Project) (k : Nat) (hk : k < p.tracks.length) :
    GetTrack p (k : Int) = some k := by
  unfold GetTrack
  have h1 : (0 : Int) ≤ (k : Int) := Int.natCast_nonneg k
  have h2 : (k : Int) < (p.tracks.length : Int) := by exact_mod_cast hk
  simp [h1, h2]

theorem GetTrack_some (p : Project) (idx : Int) (t : Nat) (h : GetTrack p idx = some t) :
    t < p.tracks.length ∧ (t : Int) = idx := by
  unfold GetTrack at h
  split_ifs at h with hc
  simp only [Option.some.injEq] at h
  omega

theorem mutedTracks_zero (idx : Int) (tracks : List MediaTrack) :
    mutedTracks idx 0 tracks = tracks := by
  unfold mutedTracks
  rw [List.mapIdx_eq_iff]
  intro i
  cases tracks[i]? <;> simp

theorem muteSnapshot_zero (tracks : List MediaTrack) :
    muteSnapshot 0 tracks = List.replicate tracks.length 0 := by
  unfold muteSnapshot
  rw [List.mapIdx_eq_iff]
  intro i
  rw [List.getElem?_replicate]
  by_cases hi : i < tracks.length
  · simp [hi, List.getElem?_eq_getElem hi]
  · simp [hi, List.getElem?_eq_none (Nat.le_of_not_lt hi)]

theorem mutedTracks_step (idx : Int) (k : Nat) (tracks : List MediaTrack) :
    (mutedTracks idx k tracks).modify
        (fun tr => { tr with mute := decide ((if (k : Int) = idx then (0 : ℚ) else 1) ≠ 0) }) k
      = mutedTracks idx (k + 1) tracks := by
  apply List.ext_getElem?
  intro i
  unfold mutedTracks
  rw [List.getElem?_modify]
  simp only [List.getElem?_mapIdx]
  cases hti : tracks[i]? with
  | none => simp
  | some tr =>
    by_cases hik : k = i
    · subst hik
      by_cases hidx : (k : Int) = idx <;> simp [hidx]
    · by_cases hlt : i < k
      · have : i < k + 1 := by omega
        simp [hik, hlt, this]
      · have : ¬ i < k + 1 := by omega
        simp [hik, hlt, this]

theorem muteSnapshot_step (k : Nat) (tracks : List MediaTrack) (tr : MediaTrack)
    (hk : tracks[k]? = some tr) :
    (muteSnapshot k tracks).set k (if tr.mute then 1 else 0) = muteSnapshot (k + 1) tracks := by
  apply List.ext_getElem?
  intro i
  unfold muteSnapshot
  rw [List.getElem?_set]
  simp only [List.getElem?_mapIdx, List.length_mapIdx]
  by_cases hik : k = i
  · subst hik
    have hlen : k < tracks.length := (List.getElem?_eq_some.mp hk).1
    simp [hk, hlen]
  · cases hti : tracks[i]? with
    | none => simp [hik]
    | some tr2 =>
      by_cases hlt : i < k
      · have : i < k + 1 := by omega
        simp [hik, hlt, this]
      · have : ¬ i < k + 1 := by omega
        simp [hik, hlt, this]

/-- The state of the mute loop of `CmdRenderTrack` after `k` rounds. -/
theorem muteLoop_spec (idx : Int) (p : Project) (k : Nat) (hk : k ≤ p.tracks.length) :
    forRange k (muteBody idx) (List.replicate p.tracks.length 0, p)
      = (muteSnapshot k p.tracks, { p with tracks := mutedTracks idx k p.tracks }) := by
  induction k with
  | zero => simp [forRange_zero, mutedTracks_zero, muteSnapshot_zero]
  | succ k ih =>
    have hlt : k < p.tracks.length := hk
    rw [forRange_succ, ih (Nat.le_of_lt hlt)]
    have hlen : (mutedTracks idx k p.tracks).length = p.tracks.length := by
      simp [mutedTracks]
    have hget : GetTrack { p with tracks := mutedTracks idx k p.tracks } (k : Int) = some k :=
      GetTrack_natCast _ k (by simpa [hlen] using hlt)
    have hk? : p.tracks[k]? = some p.tracks[k] := List.getElem?_eq_getElem hlt
    have hmk : (mutedTracks idx k p.tracks)[k]? = some p.tracks[k] := by
      simp [mutedTracks, hk?]
    simp only [muteBody, hget, GetMediaTrackInfo_Value, hmk, SetMediaTrackInfo_Value, updTrack]
    rw [mutedTracks_step, muteSnapshot_step k p.tracks _ hk?]

theorem restoredTracks_zero (m : List ℚ) (tracks : List MediaTrack) :
    restoredTracks m 0 tracks = tracks := by
  unfold restoredTracks
  rw [List.mapIdx_eq_iff]
  intro i
  cases tracks[i]? <;> simp

theorem restoredTracks_step (m : List ℚ) (k : Nat) (tracks : List MediaTrack) :
    (restoredTracks m k tracks).modify (fun tr => { tr with mute := decide (m.getD k 0 ≠ 0) }) k
      = restoredTracks m (k + 1) tracks := by
  apply List.ext_getElem?
  intro i
  unfold restoredTracks
  rw [List.getElem?_modify]
  simp only [List.getElem?_mapIdx]
  cases hti : tracks[i]? with
  | none => simp
  | some tr =>
    by_cases hik : k = i
    · subst hik
      simp
    · by_cases hlt : i < k
      · have : i < k + 1 := by omega
        simp [hik, hlt, this]
      · have : ¬ i < k + 1 := by omega
        simp [hik, hlt, this]

/-- The project after `k` rounds of a restore loop (lines 325-331, 364-370). -/
theorem restoreLoop_spec (m : List ℚ) (q : Project) (k : Nat) (hk : k ≤ q.tracks.length) :
    forRange k (restoreBody m) q = { q with tracks := restoredTracks m k q.tracks } := by
  induction k with
  | zero => simp [forRange_zero, restoredTracks_zero]
  | succ k ih =>
    have hlt : k < q.tracks.length := hk
    rw [forRange_succ, ih (Nat.le_of_lt hlt)]
    have hlen : (restoredTracks m k q.tracks).length = q.tracks.length := by
      simp [restoredTracks]
    have hget : GetTrack { q with tracks := restoredTracks m k q.tracks } (k : Int) = some k :=
      GetTrack_natCast _ k (by simpa [hlen] using hlt)
    simp only [restoreBody, hget, SetMediaTrackInfo_Value, updTrack]
    rw [restoredTracks_step]

theorem maxEndBody_eq (q : Project) (t i : Nat) (m : ℚ) :
    maxEndBody q t i m =
      match (trackItems q t)[i]? with
      | none => m
      | some it => extentStep m it := by
  unfold maxEndBody GetTrackMediaItem GetMediaItemInfo_Value trackItems extentStep
  cases hq : q.tracks[t]? with
  | none => simp
  | some tr =>
    by_cases hi : i < tr.items.length
    · simp [hi, List.getElem?_eq_getElem hi]
    · simp [hi, List.getElem?_eq_none (Nat.le_of_not_lt hi)]

/-- The extent loop (lines 311-321) after `k` rounds is a fold over the first `k` items. -/
theorem maxEndLoop_spec (q : Project) (t : Nat) (m0 : ℚ) (k : Nat) :
    forRange k (maxEndBody q t) m0 = ((trackItems q t).take k).foldl extentStep m0 := by
  induction k with
  | zero => simp [forRange_zero]
  | succ k ih =>
    rw [forRange_succ, ih, maxEndBody_eq, List.take_succ, List.foldl_append]
    cases (trackItems q t)[k]? <;> simp

theorem CountTrackMediaItems_eq (q : Project) (t : Nat) :
    CountTrackMediaItems q t = (trackItems q t).length := by
  unfold CountTrackMediaItems trackItems
  cases q.tracks[t]? <;> simp

theorem extent_fold_of_all_le (items : List MediaItem) (m0 : ℚ)
    (h : ∀ it ∈ items, it.position + it.length ≤ m0) :
    items.foldl extentStep m0 = m0 := by
  induction items with
  | nil => rfl
  | cons it rest ih =>
    have hit : it.position + it.length ≤ m0 := h it (List.mem_cons_self it rest)
    have hstep : extentStep m0 it = m0 := by
      unfold extentStep
      simp [not_lt.mpr hit]
    rw [List.foldl_cons, hstep]
    exact ih (fun x hx => h x (List.mem_cons_of_mem it hx))

theorem extent_fold_ge_init (items : List MediaItem) (m0 : ℚ) :
    m0 ≤ items.foldl extentStep m0 := by
  induction items generalizing m0 with
  | nil => exact le_refl m0
  | cons it rest ih =>
    rw [List.foldl_cons]
    refine le_trans ?_ (ih (extentStep m0 it))
    unfold extentStep
    split_ifs with hgt
    · exact le_of_lt hgt
    · exact le_refl m0

theorem extent_fold_ge_mem (items : List MediaItem) (m0 : ℚ) (it : MediaItem) (hit : it ∈ items) :
    it.position + it.length ≤ items.foldl extentStep m0 := by
  induction items generalizing m0 with
  | nil => simp at hit
  | cons x rest ih =>
    rw [List.foldl_cons]
    rcases List.mem_cons.mp hit with hx | hx
    · subst hx
      refine le_trans ?_ (extent_fold_ge_init rest (extentStep m0 it))
      unfold extentStep
      split_ifs with hgt
      · exact le_refl _
      · exact not_lt.mp hgt
    · exact ih (extentStep m0 x) hx

theorem trackItems_muted (idx : Int) (k : Nat) (p : Project) (t : Nat) :
    trackItems { p with tracks := mutedTracks idx k p.tracks } t = trackItems p t := by
  unfold trackItems mutedTracks
  simp only [List.getElem?_mapIdx]
  cases p.tracks[t]? with
  | none => rfl
  | some tr => by_cases h : t < k <;> simp [h]

theorem restored_muted (idx : Int) (tracks : List MediaTrack) :
    restoredTracks (muteSnapshot tracks.length tracks) tracks.length
        (mutedTracks idx tracks.length tracks) = tracks := by
  apply List.ext_getElem?
  intro i
  unfold restoredTracks mutedTracks muteSnapshot
  simp only [List.getElem?_mapIdx, List.getD_eq_getElem?_getD]
  by_cases hi : i < tracks.length
  · simp only [List.getElem?_eq_getElem hi, Option.map_some', hi, if_true, Option.getD_some]
    cases hm : (tracks[i]).mute <;> simp [hm]
    all_goals (cases htr : tracks[i]; simp_all)
  · simp [List.getElem?_eq_none (Nat.le_of_not_lt hi)]

theorem restored_mutes (orig tracks2 : List MediaTrack) (hlen : tracks2.length = orig.length) :
    (restoredTracks (muteSnapshot orig.length orig) orig.length tracks2).map (fun tr => tr.mute)
      = orig.map (fun tr => tr.mute) := by
  apply List.ext_getElem?
  intro i
  unfold restoredTracks muteSnapshot
  simp only [List.getElem?_map, List.getElem?_mapIdx, List.getD_eq_getElem?_getD]
  by_cases hi : i < orig.length
  · have hi2 : i < tracks2.length := by omega
    simp only [List.getElem?_eq_getElem hi, List.getElem?_eq_getElem hi2, Option.map_some', hi,
      if_true, Option.getD_some]
    cases hm : (orig[i]).mute <;> simp [hm]
  · have hi2 : ¬ i < tracks2.length := by omega
    simp [List.getElem?_eq_none (Nat.le_of_not_lt hi), List.getElem?_eq_none (Nat.le_of_not_lt hi2)]

theorem reportsFailure_MakeError (msg : Str) : reportsFailure (MakeError msg) = true := by
  simp [reportsFailure, MakeError, List.isPrefixOf]

theorem maxEnd_muted (idx : Int) (p : Project) (t : Nat) :
    forRange (CountTrackMediaItems
        { p with tracks := mutedTracks idx p.tracks.length p.tracks } t)
      (maxEndBody { p with tracks := mutedTracks idx p.tracks.length p.tracks } t) 0
      = renderExtent p t := by
  rw [maxEndLoop_spec, CountTrackMediaItems_eq, trackItems_muted, List.take_length]
  rfl

/-- The success path of `CmdRenderTrack` in closed form. -/
theorem CmdRenderTrack_audio (env : Env) (h : Host) (trackIndex : Int) (outputPath : Str) (t : Nat)
    (htrack : GetTrack h.proj trackIndex = some t)
    (hpos : 0 < renderExtent h.proj t) :
    CmdRenderTrack env trackIndex outputPath h =
      (renderOkText outputPath,
        { proj := GetSet_LoopTimeRange
            (forRange h.proj.tracks.length
              (restoreBody (muteSnapshot h.proj.tracks.length h.proj.tracks))
              (SetProjectInfo_String
                (SetProjectInfo_String
                  (env.renderAction
                    (renderInput env trackIndex outputPath h.proj (renderExtent h.proj t)))
                  .RENDER_FILE h.proj.renderFile)
                .RENDER_PATTERN h.proj.renderPattern)) 0 0,
          renders := h.renders
            ++ [renderInput env trackIndex outputPath h.proj (renderExtent h.proj t)] }) := by
  unfold CmdRenderTrack
  simp only [htrack, CountTracks, muteLoop_spec trackIndex h.proj _ (le_refl _), maxEnd_muted,
    not_le.mpr hpos, if_false]
  rfl

theorem cstr_of_isCString (s : Str) (h : isCString s) : cstr s = s := by
  unfold cstr
  rw [List.takeWhile_eq_self_iff]
  intro c hc
  have hne : c ≠ Char.ofNat 0 := fun heq => h (heq ▸ hc)
  simpa using hne

theorem mutedTracks_full (idx : Int) (tracks : List MediaTrack) (i : Nat) (tr : MediaTrack)
    (h : (mutedTracks idx tracks.length tracks)[i]? = some tr) :
    (tr.mute = false ↔ (i : Int) = idx) := by
  unfold mutedTracks at h
  simp only [List.getElem?_mapIdx] at h
  by_cases hi : i < tracks.length
  · simp only [List.getElem?_eq_getElem hi, Option.map_some', hi, if_true,
      Option.some.injEq] at h
    subst h
    simp
  · simp [List.getElem?_eq_none (Nat.le_of_not_lt hi)] at h

theorem unescape_eq_nil (s : Str) (h : s = []) : JsonUnescapeSimple s = [] := by
  subst h; rfl

theorem findCharAux_append (c : Char) (pre rest : Str) (i : Nat) (hpre : c ∉ pre) :
    findCharAux c (pre ++ c :: rest) i = some (i + pre.length) := by
  induction pre generalizing i with
  | nil => simp [findCharAux]
  | cons x xs ih =>
    have hx : x ≠ c := fun h => hpre (h ▸ List.mem_cons_self x xs)
    have hxs : c ∉ xs := fun h => hpre (List.mem_cons_of_mem x h)
    rw [List.cons_append]
    simp only [findCharAux, hx, if_false]
    rw [ih (i + 1) hxs, List.length_cons]
    congr 1
    omega

theorem quote_not_mem_escape (msg : Str) (h : '"' ∉ msg) : '"' ∉ JsonEscape msg := by
  induction msg with
  | nil => simp [JsonEscape]
  | cons c s ih =>
    have hc : c ≠ '"' := fun hc => h (hc ▸ List.mem_cons_self c s)
    have hs : '"' ∉ JsonEscape s := ih (fun hm => h (List.mem_cons_of_mem c hm))
    simp only [JsonEscape]
    split_ifs <;> simp [hs, Ne.symm hc]

/-- For every message without a double quote the `message` field of `MakeOk msg`
decodes to exactly the escaped message `JsonEscape msg`. -/
theorem getString_MakeOk_of_no_quote (msg : Str) (h : '"' ∉ msg) :
    JsonGetString (MakeOk msg) "message".toList = some (JsonEscape msg) := by
  have hfind : findCharAux '"' (JsonEscape msg ++ '"' :: ['\x7d']) 27
      = some (27 + (JsonEscape msg).length) :=
    findCharAux_append '"' _ _ 27 (quote_not_mem_escape msg h)
  simp [JsonGetString, MakeOk, findStr, findStrAux, findChar, findCharAux, quoted,
    List.isPrefixOf, substr, hfind]

/-- One round of the removal loop of `CmdClearTrack`. -/
theorem clearLoop_unfold (t : Nat) (p : Project) :
    clearLoop t p =
      if 0 < CountTrackMediaItems p t then
        match GetTrackMediaItem p t 0 with
        | none => p
        | some item => clearLoop t (DeleteTrackMediaItem p t item)
      else p := by
  rw [clearLoop]
  split
  · split <;> simp_all
  · rfl

theorem guard_cleared (env : Env) (io : IoOutcome) (w : World) (hguard : w.g_processing = false) :
    (ProcessOneCommand env io w).g_processing = false := by
  unfold ProcessOneCommand
  simp only [hguard, Bool.false_eq_true, if_false]
  split
  · rfl
  · split
    · rfl
    · split <;> rfl

theorem joinComma_append_single (l : List Str) (e : Str) :
    joinComma (l ++ [e]) = if l = [] then e else joinComma l ++ ",".toList ++ e := by
  induction l with
  | nil => simp [joinComma]
  | cons x xs ih =>
    cases xs with
    | nil => simp [joinComma]
    | cons y ys =>
      have hne : (y :: ys) ≠ [] := List.cons_ne_nil y ys
      simp only [hne, if_false] at ih
      have hstep : joinComma (x :: y :: ys ++ [e])
          = x ++ ",".toList ++ joinComma (y :: ys ++ [e]) := rfl
      rw [hstep, ih]
      simp [joinComma, List.append_assoc]

theorem MakeTracksBody_eq (p : Project) (k : Nat) (tr : MediaTrack) (st : Str × Bool)
    (hk : p.tracks[k]? = some tr) :
    MakeTracksBody p k st
      = ((if st.2 then st.1 else st.1 ++ ",".toList) ++ trackEntry k (trackLabel k tr), false) := by
  have hlt : k < p.tracks.length := (List.getElem?_eq_some.mp hk).1
  unfold MakeTracksBody
  simp only [GetTrack_natCast p k hlt, GetTrackName, hk, trackEntry, trackLabel]
  cases hn : tr.name with
  | none => simp
  | some nm =>
    by_cases hempty : List.take 511 (cstr nm) = []
    · simp [hempty]
    · simp [hempty]

/-- The state of the loop of `MakeTracks` after `k` rounds. -/
theorem MakeTracksLoop_spec (p : Project) (pre : Str) (k : Nat) (hk : k ≤ p.tracks.length) :
    forRange k (MakeTracksBody p) (pre, true)
      = (pre ++ joinComma ((p.tracks.mapIdx (fun i tr => trackEntry i (trackLabel i tr))).take k),
          decide (k = 0)) := by
  induction k with
  | zero => simp [forRange_zero, joinComma]
  | succ k ih =>
    have hlt : k < p.tracks.length := hk
    have hk? : p.tracks[k]? = some p.tracks[k] := List.getElem?_eq_getElem hlt
    rw [forRange_succ, ih (Nat.le_of_lt hlt), MakeTracksBody_eq p k _ _ hk?, List.take_succ]
    simp only [List.getElem?_mapIdx, hk?, Option.map_some', Option.toList_some,
      joinComma_append_single]
    have hnil : (List.take k (p.tracks.mapIdx (fun i tr => trackEntry i (trackLabel i tr))) = [])
        ↔ k = 0 := by
      constructor
      · intro h
        have hlen := congrArg List.length h
        simp only [List.length_take, List.length_mapIdx, List.length_nil] at hlen
        omega
      · intro h; subst h; rfl
    by_cases hz : k = 0
    · subst hz
      simp [joinComma]
    · have hne : ¬ List.take k (p.tracks.mapIdx (fun i tr => trackEntry i (trackLabel i tr))) = [] :=
        fun h => hz (hnil.mp h)
      simp [hz, hne, List.append_assoc]

/-- `MakeTracks` in closed form. -/
theorem MakeTracks_eq (p : Project) : MakeTracks p = tracksDoc trackLabel p := by
  unfold MakeTracks tracksDoc CountTracks
  simp only [MakeTracksLoop_spec p _ _ (le_refl _)]
  rw [← List.length_mapIdx (l := p.tracks) (f := fun i tr => trackEntry i (trackLabel i tr)),
    List.take_length]

theorem trackLabel_eq_full (i : Nat) (tr : MediaTrack)
    (hfit : ∀ nm, tr.name = some nm → isCString nm ∧ nm.length < 512) :
    trackLabel i tr = fullNameLabel i tr := by
  unfold trackLabel fullNameLabel
  cases hn : tr.name with
  | none => rfl
  | some nm =>
    obtain ⟨hc, hl⟩ := hfit nm hn
    have htake : (cstr nm).take 511 = nm := by
      rw [cstr_of_isCString nm hc]
      exact List.take_of_length_le (by omega)
    simp only [htake]

theorem tracksDoc_congr (f g : Nat → MediaTrack → Str) (p : Project)
    (h : ∀ i tr, p.tracks[i]? = some tr → f i tr = g i tr) :
    tracksDoc f p = tracksDoc g p := by
  unfold tracksDoc
  have hmap : p.tracks.mapIdx (fun i tr => trackEntry i (f i tr))
      = p.tracks.mapIdx (fun i tr => trackEntry i (g i tr)) := by
    apply List.ext_getElem?
    intro i
    simp only [List.getElem?_mapIdx]
    cases hi : p.tracks[i]? with
    | none => rfl
    | some tr => simp [h i tr hi]
  rw [hmap]

/-- What holds of `WriteFileAtomic` at every outcome: it returns true exactly when
all three steps succeed; a failed call leaves the response file as it was; a
successful call leaves exactly `content` there and no temporary file; the command
file is never touched; after a failed rename the temporary file is gone when its
removal succeeds. -/
theorem WriteFileAtomic_outcomes (io : IoOutcome) (content : Str) (fs : Files) :
    ((WriteFileAtomic io content fs).1 = true
        ↔ (io.tmpOpenOk = true ∧ io.tmpWriteOk = true ∧ io.renameOk = true))
      ∧ ((WriteFileAtomic io content fs).1 = false →
          (WriteFileAtomic io content fs).2.response = fs.response)
      ∧ ((WriteFileAtomic io content fs).1 = true →
          (WriteFileAtomic io content fs).2.response = some content
            ∧ (WriteFileAtomic io content fs).2.responseTmp = none)
      ∧ (WriteFileAtomic io content fs).2.command = fs.command
      ∧ (io.tmpOpenOk = true → io.tmpWriteOk = true → io.renameOk = false →
          io.removeTmpOk = true → (WriteFileAtomic io content fs).2.responseTmp = none) := by
  unfold WriteFileAtomic
  cases ho : io.tmpOpenOk <;> cases hw : io.tmpWriteOk <;> cases hr : io.renameOk
    <;> cases hm : io.removeTmpOk <;> simp

theorem findCharAux_isSome (c : Char) (pre rest : Str) (i : Nat) :
    ∃ e, findCharAux c (pre ++ c :: rest) i = some e := by
  induction pre generalizing i with
  | nil => exact ⟨i, by simp [findCharAux]⟩
  | cons x xs ih =>
    by_cases hx : x = c
    · exact ⟨i, by simp [findCharAux, hx]⟩
    · obtain ⟨e, he⟩ := ih (i + 1)
      refine ⟨e, ?_⟩
      rw [List.cons_append]
      simp only [findCharAux, hx, if_false]
      exact he

theorem MessageShaped_spec (resp : Str) (h : MessageShaped resp) :
    beginsWithSuccess resp = true ∧ (JsonGetString resp "message".toList).isSome = true := by
  obtain ⟨body, rest, h | h⟩ := h
  · subst h
    obtain ⟨e, he⟩ := findCharAux_isSome '"' body rest 27
    constructor
    · simp [beginsWithSuccess, List.isPrefixOf]
    · simp [JsonGetString, findStr, findStrAux, findChar, findCharAux, quoted, List.isPrefixOf, he]
  · subst h
    obtain ⟨e, he⟩ := findCharAux_isSome '"' body rest 28
    constructor
    · simp [beginsWithSuccess, List.isPrefixOf]
    · simp [JsonGetString, findStr, findStrAux, findChar, findCharAux, quoted, List.isPrefixOf, he]

theorem MakeOk_shaped (msg : Str) : MessageShaped (MakeOk msg) :=
  ⟨JsonEscape msg, ['\x7d'], Or.inl (by simp [MakeOk])⟩

theorem MakeError_shaped (msg : Str) : MessageShaped (MakeError msg) :=
  ⟨JsonEscape msg, ['\x7d'], Or.inr (by simp [MakeError])⟩

theorem renderOkText_shaped (outputPath : Str) : MessageShaped (renderOkText outputPath) :=
  ⟨JsonEscape outputPath, ",\"outputPath\":\"".toList ++ JsonEscape outputPath ++ "\"\x7d".toList,
    Or.inl (by simp [renderOkText])⟩

theorem CmdLoadAudio_shaped (env : Env) (idx : Int) (path : Str) (h : Host) :
    MessageShaped (CmdLoadAudio env idx path h).1 := by
  unfold CmdLoadAudio
  split
  · exact MakeError_shaped _
  · simp only
    split
    · exact MakeOk_shaped _
    · exact MakeError_shaped _

theorem CmdClearTrack_shaped (idx : Int) (h : Host) : MessageShaped (CmdClearTrack idx h).1 := by
  unfold CmdClearTrack
  split
  · exact MakeError_shaped _
  · exact MakeOk_shaped _

theorem CmdRenderTrack_shaped (env : Env) (idx : Int) (path : Str) (h : Host) :
    MessageShaped (CmdRenderTrack env idx path h).1 := by
  unfold CmdRenderTrack
  split
  · exact MakeError_shaped _
  · simp only
    split
    · exact MakeError_shaped _
    · exact renderOkText_shaped _

theorem routeCommand_shaped (env : Env) (content : Str) (h : Host)
    (hcmd : decodedCommand content ≠ "GET_TRACKS".toList) :
    MessageShaped (routeCommand env content h).1 := by
  unfold decodedCommand at hcmd
  unfold routeCommand
  simp only [hcmd, if_false]
  split
  · exact MakeOk_shaped _
  · split
    · split
      · exact MakeError_shaped _
      · exact CmdLoadAudio_shaped _ _ _ _
    · split
      · split
        · exact MakeError_shaped _
        · exact CmdClearTrack_shaped _ _
      · split
        · split
          · exact MakeError_shaped _
          · exact CmdRenderTrack_shaped _ _ _ _
        · exact MakeError_shaped _

theorem MakeTracks_beginsWithSuccess (p : Project) : beginsWithSuccess (MakeTracks p) = true := by
  rw [MakeTracks_eq]
  simp [beginsWithSuccess, tracksDoc, List.isPrefixOf]

theorem reportsSuccess_MakeOk (msg : Str) : reportsSuccess (MakeOk msg) = true := by
  simp [reportsSuccess, MakeOk, List.isPrefixOf]

theorem reportsSuccess_MakeError (msg : Str) : reportsSuccess (MakeError msg) = false := by
  simp [reportsSuccess, MakeError, List.isPrefixOf]

theorem reportsFailure_renderOkText (path : Str) : reportsFailure (renderOkText path) = false := by
  simp [reportsFailure, renderOkText, List.isPrefixOf]

theorem CountTrackMediaItems_loadPrepared (p : Project) (t j : Nat) :
    CountTrackMediaItems (loadPrepared p t) j = CountTrackMediaItems p j := by
  unfold CountTrackMediaItems loadPrepared SetEditCurPos SetOnlyTrackSelected
  simp only [List.getElem?_mapIdx]
  cases p.tracks[j]? <;> rfl

theorem extent_fold_mem_or_init (items : List MediaItem) (m0 : ℚ) :
    items.foldl extentStep m0 = m0
      ∨ ∃ it ∈ items, items.foldl extentStep m0 = it.position + it.length := by
  induction items generalizing m0 with
  | nil => exact Or.inl rfl
  | cons x rest ih =>
    rw [List.foldl_cons]
    rcases ih (extentStep m0 x) with h | ⟨it, hit, h⟩
    · unfold extentStep at h ⊢
      split_ifs at h ⊢ with hgt
      · exact Or.inr ⟨x, List.mem_cons_self x rest, h⟩
      · exact Or.inl h
    · exact Or.inr ⟨it, List.mem_cons_of_mem x hit, h⟩

theorem renderExtent_isExtent (p : Project) (t : Nat) :
    IsExtent (trackItems p t) (renderExtent p t) := by
  unfold IsExtent renderExtent
  by_cases hall : ∀ it ∈ trackItems p t, it.position + it.length ≤ 0
  · exact Or.inl ⟨hall, extent_fold_of_all_le _ 0 hall⟩
  · right
    push_neg at hall
    obtain ⟨it, hit, hgt⟩ := hall
    have hpos : 0 < (trackItems p t).foldl extentStep 0 :=
      lt_of_lt_of_le hgt (extent_fold_ge_mem _ 0 it hit)
    refine ⟨hpos, ?_, fun x hx => extent_fold_ge_mem _ 0 x hx⟩
    rcases extent_fold_mem_or_init (trackItems p t) 0 with h0 | hmem
    · rw [h0] at hpos
      exact absurd hpos (lt_irrefl 0)
    · exact hmem

/-- The no-audio path of `CmdRenderTrack` in closed form. -/
theorem CmdRenderTrack_silent (env : Env) (h : Host) (trackIndex : Int) (outputPath : Str)
    (t : Nat) (htrack : GetTrack h.proj trackIndex = some t)
    (hle : renderExtent h.proj t ≤ 0) :
    CmdRenderTrack env trackIndex outputPath h = (noAudioText, h) := by
  unfold CmdRenderTrack
  simp only [htrack, CountTracks, muteLoop_spec trackIndex h.proj _ (le_refl _), maxEnd_muted,
    hle, if_true]
  rw [restoreLoop_spec _ _ _ (by simp [mutedTracks])]
  simp only [restored_muted]
  rfl

/-- A restore loop writes nothing but tracks. -/
theorem restoreLoop_frame (m : List ℚ) (k : Nat) (q : Project) :
    ∃ tracks2, forRange k (restoreBody m) q = { q with tracks := tracks2 } := by
  induction k with
  | zero => exact ⟨q.tracks, by rw [forRange_zero]⟩
  | succ k ih =>
    obtain ⟨tr2, h2⟩ := ih
    rw [forRange_succ, h2]
    unfold restoreBody
    split
    · exact ⟨tr2, rfl⟩
    · exact ⟨_, rfl⟩

theorem count_delete_first (p : Project) (t n : Nat) (h : CountTrackMediaItems p t = n + 1) :
    GetTrackMediaItem p t 0 = some 0 ∧ CountTrackMediaItems (deleteFirst t p) t = n := by
  unfold CountTrackMediaItems at h
  unfold GetTrackMediaItem CountTrackMediaItems deleteFirst DeleteTrackMediaItem updTrack
  cases ht : p.tracks[t]? with
  | none => simp [ht] at h
  | some tr =>
    simp only [ht] at h
    have hpos : 0 < tr.items.length := by omega
    simp [ht, hpos, List.getElem?_modify, List.length_eraseIdx, h]

theorem clear_of_count_zero (p : Project) (t : Nat) (h : CountTrackMediaItems p t = 0) :
    updTrack p t (fun tr => { tr with items := [] }) = p := by
  unfold CountTrackMediaItems at h
  unfold updTrack
  have htracks : p.tracks.modify (fun tr => { tr with items := [] }) t = p.tracks := by
    apply List.ext_getElem?
    intro i
    rw [List.getElem?_modify]
    by_cases hi : t = i
    · subst hi
      cases ht : p.tracks[t]? with
      | none => simp
      | some tr =>
        simp only [ht] at h
        have hnil : tr.items = [] := List.length_eq_zero.mp h
        cases tr
        simp_all
    · simp [hi]
  rw [htracks]

theorem clear_after_delete (p : Project) (t : Nat) :
    updTrack (deleteFirst t p) t (fun tr => { tr with items := [] })
      = updTrack p t (fun tr => { tr with items := [] }) := by
  unfold deleteFirst DeleteTrackMediaItem updTrack
  simp only
  congr 1
  apply List.ext_getElem?
  intro i
  simp only [List.getElem?_modify]
  by_cases hi : t = i
  · subst hi
    cases p.tracks[t]? <;> simp
  · simp [hi]

/-- The removal loop of `CmdClearTrack` on a track with `n` items is `n` removals of
the first item, and leaves the project with that track emptied. -/
theorem clearLoop_spec (t : Nat) (n : Nat) : ∀ p : Project, CountTrackMediaItems p t = n →
    clearLoop t p = (deleteFirst t)^[n] p
      ∧ clearLoop t p = updTrack p t (fun tr => { tr with items := [] }) := by
  induction n with
  | zero =>
    intro p h
    rw [clearLoop_unfold]
    simp only [h, Nat.lt_irrefl, if_false, Function.iterate_zero, id_eq, true_and]
    exact (clear_of_count_zero p t h).symm
  | succ n ih =>
    intro p h
    obtain ⟨hget, hcount⟩ := count_delete_first p t n h
    have hstep : clearLoop t p = clearLoop t (deleteFirst t p) := by
      rw [clearLoop_unfold]
      simp only [h, Nat.succ_pos, if_true, hget]
      rfl
    obtain ⟨h1, h2⟩ := ih (deleteFirst t p) hcount
    rw [hstep]
    exact ⟨by rw [h1, Function.iterate_succ_apply], by rw [h2, clear_after_delete]⟩

/-- Where a dispatch cycle that reads a command leaves the files: the command file is
gone exactly when its removal succeeds; the response file holds the response of the
cycle when `WriteFileAtomic` succeeds and is left as it was when it fails. -/
theorem cycle_final_files (env : Env) (io : IoOutcome) (w : World) (content : Str)
    (hguard : w.g_processing = false)
    (hfile : w.files.command = some content)
    (hread : io.readOk = true)
    (hne : content ≠ []) :
    ((ProcessOneCommand env io w).files.command = none ↔ io.deleteOk = true)
      ∧ ((WriteFileAtomic io (routeCommand env content w.host).1 w.files).1 = true →
          (ProcessOneCommand env io w).files.response = some (routeCommand env content w.host).1)
      ∧ ((WriteFileAtomic io (routeCommand env content w.host).1 w.files).1 = false →
          (ProcessOneCommand env io w).files.response = w.files.response) := by
  have hcycle : ProcessOneCommand env io w =
      { g_processing := false,
        files := TryDeleteFile io (WriteFileAtomic io (routeCommand env content w.host).1 w.files).2,
        host := (routeCommand env content w.host).2 } := by
    unfold ProcessOneCommand
    simp only [hguard, hfile, ReadFile, hread, hne, if_true, if_false, Bool.false_eq_true]
  rw [hcycle]
  unfold TryDeleteFile WriteFileAtomic
  cases hd : io.deleteOk <;> cases ho : io.tmpOpenOk <;> cases hw : io.tmpWriteOk
    <;> cases hr : io.renameOk <;> simp [hfile]

/-- `WriteFileAtomic` returns the last of the states its steps pass through. -/
theorem WriteFileAtomicSteps_last (io : IoOutcome) (content : Str) (fs : Files) :
    (WriteFileAtomicSteps io content fs).getLastD fs = (WriteFileAtomic io content fs).2 := by
  unfold WriteFileAtomicSteps WriteFileAtomic
  cases ho : io.tmpOpenOk <;> cases hw : io.tmpWriteOk <;> cases hr : io.renameOk <;> simp

/-- No step of `WriteFileAtomic` touches the command file. -/
theorem WriteFileAtomicSteps_command (io : IoOutcome) (content : Str) (fs : Files) :
    ∀ s ∈ WriteFileAtomicSteps io content fs, s.command = fs.command := by
  unfold WriteFileAtomicSteps
  cases ho : io.tmpOpenOk <;> cases hw : io.tmpWriteOk <;> cases hr : io.renameOk <;> simp

/-- A dispatch cycle ends in the last of the states its steps pass through. -/
theorem ProcessOneCommandSteps_last (env : Env) (io : IoOutcome) (w : World) :
    (ProcessOneCommandSteps env io w).getLast? = some (ProcessOneCommand env io w).files := by
  unfold ProcessOneCommandSteps ProcessOneCommand
  split
  · rfl
  · split
    · rfl
    · split
      · rfl
      · split
        · rfl
        · simp [List.getLast?_cons, List.getLast?_append]

/-- The steps of a dispatch cycle that reads a command. -/
theorem ProcessOneCommandSteps_read (env : Env) (io : IoOutcome) (w : World) (content : Str)
    (hguard : w.g_processing = false) (hfile : w.files.command = some content)
    (hread : io.readOk = true) (hne : content ≠ []) :
    ProcessOneCommandSteps env io w
      = (w.files :: WriteFileAtomicSteps io (routeCommand env content w.host).1 w.files)
          ++ [(ProcessOneCommand env io w).files] := by
  unfold ProcessOneCommandSteps ProcessOneCommand
  simp only [hguard, hfile, ReadFile, hread, hne, if_true, if_false, Bool.false_eq_true,
    List.cons_append]

/-! ## Claims -/

/-- C1: a dispatch cycle started with the guard clear on a command file whose decoded
`command` field is exactly PING, with every file operation succeeding, leaves exactly
the pong text in the response file, and the command file no longer exists. -/
theorem ping_cycle (env : Env) (io : IoOutcome) (w : World) (content : Str)
    (hguard : w.g_processing = false)
    (hfile : w.files.command = some content)
    (hcmd : JsonGetString content "command".toList = some "PING".toList)
    (hread : io.readOk = true) (hopen : io.tmpOpenOk = true) (hwrite : io.tmpWriteOk = true)
    (hrename : io.renameOk = true) (hdelete : io.deleteOk = true) :
    (ProcessOneCommand env io w).files.response = some pongText
      ∧ (ProcessOneCommand env io w).files.command = none := by
  have hne : content ≠ [] := by
    intro h
    rw [h, JsonGetString_nil] at hcmd
    exact Option.noConfusion hcmd
  have hroute : routeCommand env content w.host = (pongText, w.host) := by
    unfold routeCommand
    simp only [hcmd, Option.getD_some, if_true]
    rfl
  unfold ProcessOneCommand
  simp only [hguard, hfile, ReadFile, hread, hne, hroute, WriteFileAtomic, hopen,
    hwrite, hrename, TryDeleteFile, hdelete, if_true, if_false, Bool.not_true, Bool.false_eq_true,
    and_self]

/-- C1 witness: the command file holding the PING document. -/
theorem ping_cycle_witness :
    (ProcessOneCommand sampleEnv ioAllOk pingWorld).files.response = some pongText
      ∧ (ProcessOneCommand sampleEnv ioAllOk pingWorld).files.command = none :=
  ping_cycle sampleEnv ioAllOk pingWorld pingDoc rfl rfl (by decide) rfl rfl rfl rfl rfl

/-- C2: escape followed by unescape is the identity on every string. -/
theorem unescape_escape (s : Str) : JsonUnescapeSimple (JsonEscape s) = s := by
  induction s with
  | nil => rfl
  | cons c s ih => rw [unescape_escape_cons, ih]

/-- C3: at the message `a"b` the decoder stops at the escaped quote: the field of
`MakeOk` decodes to the two chars `a`, backslash, not to the message, and the same
happens to an `audioPath` written with `JsonEscape` into a command document. -/
theorem getString_stops_at_escaped_quote :
    (JsonGetString (MakeOk ['a', '"', 'b']) "message".toList).map JsonUnescapeSimple
        = some ['a', '\\']
      ∧ (JsonGetString quotedPathDoc "audioPath".toList).map JsonUnescapeSimple
        = some ['a', '\\']
      ∧ (JsonGetString (MakeOk ['a', '"', 'b']) "message".toList).map JsonUnescapeSimple
        ≠ some ['a', '"', 'b'] := by
  decide

/-- C4: `JsonGetInt` decodes the integer after the key.  (1) The document
`{"trackIndex":` w decimal(n) `}` decodes to `n` for every 32-bit `n` and every run `w`
of spaces, tabs, CR, LF.  (2) A missing key gives absent.  (3) Otherwise the result is
the spec's decoder on the text after the colon: absent when no digit follows the
skipped whitespace and optional `-`, absent when the number is outside the 32-bit
range, else the value of the optional `-` followed by the decimal digits. -/
theorem JsonGetInt_decodes :
    (∀ (w : Str) (n : Int), INT_MIN ≤ n → n ≤ INT_MAX → (∀ c ∈ w, isJsonWs c = true) →
        JsonGetInt (intDoc w n) "trackIndex".toList = some n)
      ∧ (∀ json key : Str, findStr json (quoted key) 0 = none → JsonGetInt json key = none)
      ∧ (∀ json key t : Str, valueText json key = some t →
          JsonGetInt json key = parseIntSpec t) := by
  refine ⟨?_, ?_, ?_⟩
  · intro w n hlo hhi hw
    rw [JsonGetInt_eq_parse _ _ _ (valueText_intDoc w n)]
    exact parseIntSpec_to_string w n hlo hhi hw
  · intro json key h
    simp [JsonGetInt, h]
  · exact JsonGetInt_eq_parse

/-- C4 witness: the documents of the spec's examples, a document without the key,
and a number past the `int` range. -/
theorem JsonGetInt_decodes_witness :
    (intDoc " ".toList (-1) = "\x7b\"trackIndex\": -1\x7d".toList
        ∧ JsonGetInt (intDoc " ".toList (-1)) "trackIndex".toList = some (-1))
      ∧ (intDoc "    ".toList 5 = "\x7b\"trackIndex\":    5\x7d".toList
        ∧ JsonGetInt (intDoc "    ".toList 5) "trackIndex".toList = some 5)
      ∧ JsonGetInt "\x7b\"trackIndex\": \"abc\"\x7d".toList "trackIndex".toList = none
      ∧ JsonGetInt "\x7b\"track\": 5\x7d".toList "trackIndex".toList = none
      ∧ JsonGetInt "\x7b\"trackIndex\": 2147483648\x7d".toList "trackIndex".toList = none :=
  ⟨⟨by decide, JsonGetInt_decodes.1 " ".toList (-1) (by decide) (by decide) (by decide)⟩,
   ⟨by decide, JsonGetInt_decodes.1 "    ".toList 5 (by decide) (by decide) (by decide)⟩,
   (JsonGetInt_decodes.2.2 _ _ " \"abc\"\x7d".toList (by decide)).trans (by decide),
   JsonGetInt_decodes.2.1 _ _ (by decide),
   (JsonGetInt_decodes.2.2 _ _ " 2147483648\x7d".toList (by decide)).trans (by decide)⟩

/-- C5 (as stated, refuted): backslash followed by `q` does not unescape to the one
char `q`; the backslash stays. -/
theorem unescape_unknown_not_dropped :
    JsonUnescapeSimple ['\\', 'q'] = ['\\', 'q'] ∧ JsonUnescapeSimple ['\\', 'q'] ≠ ['q'] := by
  decide

/-- C5 (amended): each of the six recognised sequences (backslash followed by
backslash, double quote, `n`, `r`, `t`, `/`) becomes its single char; for every other
char `x` the sequence backslash, `x` is kept whole, backslash included; a backslash
that ends the string is kept. -/
theorem unescape_sequences :
    (∀ rest, JsonUnescapeSimple ('\\' :: '\\' :: rest) = '\\' :: JsonUnescapeSimple rest)
      ∧ (∀ rest, JsonUnescapeSimple ('\\' :: '"' :: rest) = '"' :: JsonUnescapeSimple rest)
      ∧ (∀ rest, JsonUnescapeSimple ('\\' :: 'n' :: rest) = '\n' :: JsonUnescapeSimple rest)
      ∧ (∀ rest, JsonUnescapeSimple ('\\' :: 'r' :: rest) = '\r' :: JsonUnescapeSimple rest)
      ∧ (∀ rest, JsonUnescapeSimple ('\\' :: 't' :: rest) = '\t' :: JsonUnescapeSimple rest)
      ∧ (∀ rest, JsonUnescapeSimple ('\\' :: '/' :: rest) = '/' :: JsonUnescapeSimple rest)
      ∧ (∀ x rest, x ∉ ['\\', '"', 'n', 'r', 't', '/'] →
          JsonUnescapeSimple ('\\' :: x :: rest) = '\\' :: x :: JsonUnescapeSimple rest)
      ∧ JsonUnescapeSimple ['\\'] = ['\\'] := by
  refine ⟨?_, ?_, ?_, ?_, ?_, ?_, ?_, ?_⟩
  · intro rest; simp [JsonUnescapeSimple]
  · intro rest; simp [JsonUnescapeSimple]
  · intro rest; simp [JsonUnescapeSimple]
  · intro rest; simp [JsonUnescapeSimple]
  · intro rest; simp [JsonUnescapeSimple]
  · intro rest; simp [JsonUnescapeSimple]
  · intro x rest hx
    simp only [List.mem_cons, List.mem_singleton, not_or, List.not_mem_nil, or_false] at hx
    obtain ⟨h1, h2, h3, h4, h5, h6⟩ := hx
    have hstep : JsonUnescapeSimple ('\\' :: x :: rest) = '\\' :: JsonUnescapeSimple (x :: rest) := by
      simp [JsonUnescapeSimple, h1, h2, h3, h4, h5, h6]
    rw [hstep, unescape_cons_ne x rest h1]
  · rfl

/-- C5 witness: backslash, `q` followed by `ab`. -/
theorem unescape_sequences_witness :
    JsonUnescapeSimple ['\\', 'q', 'a', 'b'] = ['\\', 'q', 'a', 'b'] :=
  unescape_sequences.2.2.2.2.2.2.1 'q' ['a', 'b'] (by decide)

/-- C6: RENDER_TRACK on an existing target track none of whose items ends after
time zero (in particular a track without items) returns the failure response
"no audio", never invokes the render action, and leaves every track's mute flag,
indeed the whole host state, as it was before the call. -/
theorem render_no_audio (env : Env) (h : Host) (trackIndex : Int) (outputPath : Str) (t : Nat)
    (htrack : GetTrack h.proj trackIndex = some t)
    (hextent : ∀ it ∈ trackItems h.proj t, it.position + it.length ≤ 0) :
    (CmdRenderTrack env trackIndex outputPath h).1 = MakeError "Track\x27te ses bulunamadı".toList
      ∧ reportsFailure (CmdRenderTrack env trackIndex outputPath h).1 = true
      ∧ (CmdRenderTrack env trackIndex outputPath h).2.renders = h.renders
      ∧ (CmdRenderTrack env trackIndex outputPath h).2.proj.tracks.map (fun tr => tr.mute)
          = h.proj.tracks.map (fun tr => tr.mute)
      ∧ (CmdRenderTrack env trackIndex outputPath h).2 = h := by
  have hmax : forRange (CountTrackMediaItems
        { h.proj with tracks := mutedTracks trackIndex h.proj.tracks.length h.proj.tracks } t)
      (maxEndBody { h.proj with tracks := mutedTracks trackIndex h.proj.tracks.length h.proj.tracks } t)
      0 = 0 := by
    rw [maxEndLoop_spec, trackItems_muted]
    exact extent_fold_of_all_le _ 0 (fun it hit => hextent it (List.mem_of_mem_take hit))
  have hres : CmdRenderTrack env trackIndex outputPath h
      = (MakeError "Track\x27te ses bulunamadı".toList, h) := by
    unfold CmdRenderTrack
    simp only [htrack, CountTracks, muteLoop_spec trackIndex h.proj _ (le_refl _), hmax, le_refl,
      if_true]
    rw [restoreLoop_spec _ _ _ (by simp [mutedTracks])]
    simp only [restored_muted]
  rw [hres]
  exact ⟨rfl, reportsFailure_MakeError _, rfl, rfl, rfl⟩

/-- C6 witness: RENDER_TRACK on track 0 of a project whose track 0 has zero items. -/
theorem render_no_audio_witness :
    (CmdRenderTrack sampleEnv 0 "/tmp/out.wav".toList silentHost).1
        = MakeError "Track\x27te ses bulunamadı".toList
      ∧ reportsFailure (CmdRenderTrack sampleEnv 0 "/tmp/out.wav".toList silentHost).1 = true
      ∧ (CmdRenderTrack sampleEnv 0 "/tmp/out.wav".toList silentHost).2.renders = silentHost.renders
      ∧ (CmdRenderTrack sampleEnv 0 "/tmp/out.wav".toList silentHost).2.proj.tracks.map
            (fun tr => tr.mute)
          = silentHost.proj.tracks.map (fun tr => tr.mute)
      ∧ (CmdRenderTrack sampleEnv 0 "/tmp/out.wav".toList silentHost).2 = silentHost :=
  render_no_audio sampleEnv silentHost 0 "/tmp/out.wav".toList 0 (by decide)
    (by simp [trackItems, silentHost])

/-- C7: a RENDER_TRACK call that reaches the render action (the target track exists
and some item of it ends after time zero), on a project whose RENDER_FILE and
RENDER_PATTERN are C strings and with a render action that keeps the number of
tracks, leaves every track's mute flag and the two render strings exactly as before
the call; the render action is invoked once, on a project in which exactly the
target track is unmuted and every other track is muted. -/
theorem render_restores (env : Env) (h : Host) (trackIndex : Int) (outputPath : Str) (t : Nat)
    (htrack : GetTrack h.proj trackIndex = some t)
    (haudio : ∃ it ∈ trackItems h.proj t, 0 < it.position + it.length)
    (hfile : isCString h.proj.renderFile) (hpattern : isCString h.proj.renderPattern)
    (hcount : ∀ p, (env.renderAction p).tracks.length = p.tracks.length) :
    (CmdRenderTrack env trackIndex outputPath h).2.proj.tracks.map (fun tr => tr.mute)
        = h.proj.tracks.map (fun tr => tr.mute)
      ∧ (CmdRenderTrack env trackIndex outputPath h).2.proj.renderFile = h.proj.renderFile
      ∧ (CmdRenderTrack env trackIndex outputPath h).2.proj.renderPattern = h.proj.renderPattern
      ∧ ∃ during : Project,
          (CmdRenderTrack env trackIndex outputPath h).2.renders = h.renders ++ [during]
          ∧ during.tracks.length = h.proj.tracks.length
          ∧ ∀ (i : Nat) (tr : MediaTrack), during.tracks[i]? = some tr →
              (tr.mute = false ↔ (i : Int) = trackIndex) := by
  obtain ⟨it, hit, hgt⟩ := haudio
  have hpos : 0 < renderExtent h.proj t :=
    lt_of_lt_of_le hgt (extent_fold_ge_mem _ 0 it hit)
  rw [CmdRenderTrack_audio env h trackIndex outputPath t htrack hpos]
  have hlen : (env.renderAction
      (renderInput env trackIndex outputPath h.proj (renderExtent h.proj t))).tracks.length
      = h.proj.tracks.length := by
    rw [hcount]
    simp [renderInput, mutedTracks]
  have hlen2 : (SetProjectInfo_String
      (SetProjectInfo_String
        (env.renderAction (renderInput env trackIndex outputPath h.proj (renderExtent h.proj t)))
        .RENDER_FILE h.proj.renderFile)
      .RENDER_PATTERN h.proj.renderPattern).tracks.length = h.proj.tracks.length := hlen
  rw [restoreLoop_spec _ _ _ (by rw [hlen2])]
  refine ⟨?_, ?_, ?_, _, rfl, ?_, ?_⟩
  · exact restored_mutes h.proj.tracks _ hlen2
  · exact cstr_of_isCString _ hfile
  · exact cstr_of_isCString _ hpattern
  · simp [renderInput, mutedTracks]
  · intro i tr hi
    exact mutedTracks_full trackIndex h.proj.tracks i tr hi

/-- C7 witness: RENDER_TRACK on track 0 of the sample project, whose item ends at 3. -/
theorem render_restores_witness :
    (CmdRenderTrack sampleEnv 0 "/tmp/out.wav".toList sampleHost).2.proj.tracks.map
          (fun tr => tr.mute)
        = sampleHost.proj.tracks.map (fun tr => tr.mute)
      ∧ (CmdRenderTrack sampleEnv 0 "/tmp/out.wav".toList sampleHost).2.proj.renderFile
        = sampleHost.proj.renderFile
      ∧ (CmdRenderTrack sampleEnv 0 "/tmp/out.wav".toList sampleHost).2.proj.renderPattern
        = sampleHost.proj.renderPattern
      ∧ ∃ during : Project,
          (CmdRenderTrack sampleEnv 0 "/tmp/out.wav".toList sampleHost).2.renders
            = sampleHost.renders ++ [during]
          ∧ during.tracks.length = sampleHost.proj.tracks.length
          ∧ ∀ (i : Nat) (tr : MediaTrack), during.tracks[i]? = some tr →
              (tr.mute = false ↔ (i : Int) = 0) :=
  render_restores sampleEnv sampleHost 0 "/tmp/out.wav".toList 0 (by decide)
    ⟨⟨1, 2⟩, by simp [trackItems, sampleHost, sampleProject], by norm_num⟩
    (by unfold isCString; decide) (by unfold isCString; decide) (fun _ => rfl)

/-- C8: when the track index resolves to no track, each of `CmdClearTrack`,
`CmdLoadAudio` and `CmdRenderTrack` returns the failure response "track not found"
and leaves the host state (items, selection, cursor, mute flags, time selection,
render settings, render record) exactly as it was. -/
theorem track_not_found (env : Env) (h : Host) (trackIndex : Int) (path : Str)
    (hnone : GetTrack h.proj trackIndex = none) :
    CmdClearTrack trackIndex h = (trackNotFoundText, h)
      ∧ CmdLoadAudio env trackIndex path h = (trackNotFoundText, h)
      ∧ CmdRenderTrack env trackIndex path h = (trackNotFoundText, h)
      ∧ reportsFailure trackNotFoundText = true := by
  refine ⟨?_, ?_, ?_, reportsFailure_MakeError _⟩
  · simp only [CmdClearTrack, hnone, trackNotFoundText]
  · simp only [CmdLoadAudio, hnone, trackNotFoundText]
  · simp only [CmdRenderTrack, hnone, trackNotFoundText]

/-- C8 witness: track 99 of a project with two tracks, and the CLEAR_TRACK document
for it routed by the dispatcher. -/
theorem track_not_found_witness :
    (CmdClearTrack 99 sampleHost = (trackNotFoundText, sampleHost)
      ∧ CmdLoadAudio sampleEnv 99 "a.wav".toList sampleHost = (trackNotFoundText, sampleHost)
      ∧ CmdRenderTrack sampleEnv 99 "a.wav".toList sampleHost = (trackNotFoundText, sampleHost)
      ∧ reportsFailure trackNotFoundText = true)
      ∧ routeCommand sampleEnv clearDoc99 sampleHost = (CmdClearTrack 99 sampleHost) :=
  ⟨track_not_found sampleEnv sampleHost 99 "a.wav".toList (by decide), by decide⟩

/-- C10 (as stated, refuted): with the rename step of the atomic write failing, the
PING cycle removes the command file although the response file still holds the
older text, not this cycle's response. -/
theorem command_deleted_without_response :
    (ProcessOneCommand sampleEnv ioRenameFails pingWorld).files.command = none
      ∧ (routeCommand sampleEnv pingDoc pingWorld.host).1 = pongText
      ∧ (ProcessOneCommand sampleEnv ioRenameFails pingWorld).files.response = some "old".toList
      ∧ (ProcessOneCommand sampleEnv ioRenameFails pingWorld).files.response ≠ some pongText := by
  decide

/-- C10 (amended): in a dispatch cycle that reads a command, the command file is
removed by the last step only, after `WriteFileAtomic` has finished, whatever its
outcome: the command file is still there in every state the files pass through
before the last one, and the last step starts from the state `WriteFileAtomic`
returned.  So in every state of the cycle in which the command file is gone and
`WriteFileAtomic` succeeded, the response file holds exactly the response of this
cycle.  At the end the command file is gone exactly when its removal succeeds, and
when `WriteFileAtomic` fails the response file is left as it was. -/
theorem write_then_delete (env : Env) (io : IoOutcome) (w : World) (content : Str)
    (hguard : w.g_processing = false)
    (hfile : w.files.command = some content)
    (hread : io.readOk = true)
    (hne : content ≠ []) :
    (∀ fs ∈ (ProcessOneCommandSteps env io w).dropLast, fs.command = some content)
      ∧ (ProcessOneCommandSteps env io w).dropLast.getLast?
          = some (WriteFileAtomic io (routeCommand env content w.host).1 w.files).2
      ∧ (ProcessOneCommandSteps env io w).getLast? = some (ProcessOneCommand env io w).files
      ∧ (∀ fs ∈ ProcessOneCommandSteps env io w, fs.command = none →
          (WriteFileAtomic io (routeCommand env content w.host).1 w.files).1 = true →
          fs.response = some (routeCommand env content w.host).1)
      ∧ ((ProcessOneCommand env io w).files.command = none ↔ io.deleteOk = true)
      ∧ ((WriteFileAtomic io (routeCommand env content w.host).1 w.files).1 = true →
          (ProcessOneCommand env io w).files.response = some (routeCommand env content w.host).1)
      ∧ ((WriteFileAtomic io (routeCommand env content w.host).1 w.files).1 = false →
          (ProcessOneCommand env io w).files.response = w.files.response) := by
  obtain ⟨hdel, hok, hfail⟩ := cycle_final_files env io w content hguard hfile hread hne
  have hsteps := ProcessOneCommandSteps_read env io w content hguard hfile hread hne
  have hbefore : ∀ fs ∈ w.files :: WriteFileAtomicSteps io (routeCommand env content w.host).1
      w.files, fs.command = some content := by
    intro fs hfs
    rcases List.mem_cons.mp hfs with heq | hmem
    · rw [heq]; exact hfile
    · rw [WriteFileAtomicSteps_command io _ w.files fs hmem]; exact hfile
  refine ⟨?_, ?_, ProcessOneCommandSteps_last env io w, ?_, hdel, hok, hfail⟩
  · rw [hsteps, List.dropLast_concat]
    exact hbefore
  · rw [hsteps, List.dropLast_concat, List.getLast?_cons, ← WriteFileAtomicSteps_last]
    cases hl : (WriteFileAtomicSteps io (routeCommand env content w.host).1 w.files).getLast? with
    | none =>
      have hnil := List.getLast?_eq_none_iff.mp hl
      simp [hnil]
    | some a =>
      simp [List.getLastD_eq_getLast?, hl]
  · intro fs hfs hgone hwrite
    rw [hsteps] at hfs
    rcases List.mem_append.mp hfs with hmem | hmem
    · rw [hbefore fs hmem] at hgone
      exact Option.noConfusion hgone
    · rw [List.mem_singleton] at hmem
      rw [hmem]
      exact hok hwrite

/-- C10 witness: the PING cycle with every file operation succeeding passes through
five states; the command file is there in the first four and the response file of
the last one holds the pong text. -/
theorem write_then_delete_witness :
    ((ProcessOneCommandSteps sampleEnv ioAllOk pingWorld).length = 5
      ∧ (ProcessOneCommandSteps sampleEnv ioAllOk pingWorld).map (fun fs => fs.command)
          = [some pingDoc, some pingDoc, some pingDoc, some pingDoc, none])
      ∧ (∀ fs ∈ (ProcessOneCommandSteps sampleEnv ioAllOk pingWorld).dropLast,
          fs.command = some pingDoc)
      ∧ (ProcessOneCommand sampleEnv ioAllOk pingWorld).files.response = some pongText :=
  ⟨by decide,
   (write_then_delete sampleEnv ioAllOk pingWorld pingDoc rfl rfl rfl (by decide)).1,
   (write_then_delete sampleEnv ioAllOk pingWorld pingDoc rfl rfl rfl (by decide)).2.2.2.2.2.1
     (by decide)⟩

/-- C11: for every command document whose decoded `command` string `c` (empty when the
field is missing) is not exactly one of PING, GET_TRACKS, LOAD_AUDIO, CLEAR_TRACK,
RENDER_TRACK, the response is `MakeError` of the message "Bilinmeyen komut: " followed
by `c`: it reports failure, its message ends with `c`, and the host state comes back
untouched. -/
theorem unknown_command (env : Env) (content : Str) (h : Host)
    (hunknown : decodedCommand content ∉ knownCommands) :
    routeCommand env content h
        = (MakeError ("Bilinmeyen komut: ".toList ++ decodedCommand content), h)
      ∧ reportsFailure (routeCommand env content h).1 = true
      ∧ decodedCommand content <:+ "Bilinmeyen komut: ".toList ++ decodedCommand content := by
  have hroute : routeCommand env content h
      = (MakeError ("Bilinmeyen komut: ".toList ++ decodedCommand content), h) := by
    simp only [knownCommands, List.mem_cons, List.mem_singleton, not_or, List.not_mem_nil,
      or_false] at hunknown
    obtain ⟨h1, h2, h3, h4, h5⟩ := hunknown
    unfold decodedCommand at h1 h2 h3 h4 h5
    unfold routeCommand decodedCommand
    simp only [h1, h2, h3, h4, h5, if_false]
  refine ⟨hroute, ?_, List.suffix_append _ _⟩
  rw [hroute]
  exact reportsFailure_MakeError _

/-- C11 witness: the name `ping` in lower case is not PING. -/
theorem unknown_command_witness :
    routeCommand sampleEnv lowerPingDoc sampleHost
        = (MakeError ("Bilinmeyen komut: ".toList ++ decodedCommand lowerPingDoc), sampleHost)
      ∧ reportsFailure (routeCommand sampleEnv lowerPingDoc sampleHost).1 = true
      ∧ decodedCommand lowerPingDoc
          <:+ "Bilinmeyen komut: ".toList ++ decodedCommand lowerPingDoc :=
  unknown_command sampleEnv lowerPingDoc sampleHost (by decide)

/-- C12: a tick that arrives while the guard is set is a no-op: `ProcessOneCommand`
returns the state it was given, so the guard, the command file, the response file
and the host state are unchanged and no response is written. -/
theorem tick_while_processing (env : Env) (io : IoOutcome) (w : World)
    (hbusy : w.g_processing = true) :
    ProcessOneCommand env io w = w := by
  unfold ProcessOneCommand
  simp only [hbusy, if_true]

/-- C12 witness: a tick on an in-flight world that holds a PING request. -/
theorem tick_while_processing_witness :
    ProcessOneCommand sampleEnv ioAllOk busyWorld = busyWorld :=
  tick_while_processing sampleEnv ioAllOk busyWorld rfl

/-- C13: when writing the temporary file fails, `WriteFileAtomic` returns false and
leaves the response file as it was, but the temporary file stays behind with the
chars that reached it. -/
theorem tmp_left_after_failed_write :
    WriteFileAtomic ioWriteFails pongText idleFiles
        = (false, { idleFiles with responseTmp := some "\x7b\"s".toList })
      ∧ (WriteFileAtomic ioWriteFails pongText idleFiles).2.response = idleFiles.response
      ∧ (WriteFileAtomic ioWriteFails pongText idleFiles).2.responseTmp ≠ none := by
  decide

/-- C14 (as stated, refuted): the response to GET_TRACKS has no `message` field. -/
theorem tracks_response_without_message :
    (routeCommand sampleEnv getTracksDoc { sampleHost with proj := emptyProject }).1
        = "\x7b\"success\":true,\"tracks\":[]\x7d".toList
      ∧ JsonGetString
          (routeCommand sampleEnv getTracksDoc { sampleHost with proj := emptyProject }).1
          "message".toList = none := by
  decide

/-- C14 (amended): every response document the dispatcher produces begins with a
`success` field; every response other than the GET_TRACKS listing contains a `message`
string field, i.e. `JsonGetString(response, "message")` is present; the GET_TRACKS
response is the listing of `MakeTracks`, which carries `tracks` and has no `message`
field of its own. -/
theorem response_shape (env : Env) (content : Str) (h : Host) :
    beginsWithSuccess (routeCommand env content h).1 = true
      ∧ (decodedCommand content ≠ "GET_TRACKS".toList →
          (JsonGetString (routeCommand env content h).1 "message".toList).isSome = true)
      ∧ (decodedCommand content = "GET_TRACKS".toList →
          (routeCommand env content h).1 = tracksDoc trackLabel h.proj) := by
  by_cases hcmd : decodedCommand content = "GET_TRACKS".toList
  · have hroute : (routeCommand env content h).1 = MakeTracks h.proj := by
      unfold decodedCommand at hcmd
      unfold routeCommand
      simp only [hcmd]
      rfl
    refine ⟨?_, fun hne => absurd hcmd hne, fun _ => ?_⟩
    · rw [hroute]; exact MakeTracks_beginsWithSuccess _
    · rw [hroute]; exact MakeTracks_eq _
  · have hs := MessageShaped_spec _ (routeCommand_shaped env content h hcmd)
    exact ⟨hs.1, fun _ => hs.2, fun heq => absurd heq hcmd⟩

/-- C14 witness: the response to the PING document. -/
theorem response_shape_witness :
    (JsonGetString (routeCommand sampleEnv pingDoc sampleHost).1 "message".toList).isSome = true :=
  (response_shape sampleEnv pingDoc sampleHost).2.1 (by decide)

set_option maxRecDepth 100000 in
/-- C15 (as stated, refuted): for a track whose name has 512 chars the listing does
not carry the track's name: it carries the 511 chars that fit the name buffer. -/
theorem long_name_cut :
    MakeTracks longNameProject ≠ tracksDoc fullNameLabel longNameProject
      ∧ MakeTracks longNameProject
        = tracksDoc (fun _ _ => List.replicate 511 'a') longNameProject := by
  decide

/-- C15 (amended): for every project `MakeTracks` returns `{"success":true,"tracks":[`,
then the entries `{"index":i,"name":"<JsonEscape(name_i)>"}` for i = 0, 1, ..., n-1 in
that order separated by commas, then `]}`, where name_i is the first 511 chars of the
track's name (what fits the 512-char name buffer), or the label "Track " followed by
decimal(i+1) when the name is absent or empty; when every name is a C string shorter
than 512 chars name_i is the whole name; with no track the array is empty. -/
theorem MakeTracks_lists (p : Project) :
    MakeTracks p = tracksDoc trackLabel p
      ∧ ((∀ tr ∈ p.tracks, ∀ nm, tr.name = some nm → isCString nm ∧ nm.length < 512) →
          MakeTracks p = tracksDoc fullNameLabel p)
      ∧ (p.tracks = [] → MakeTracks p = "\x7b\"success\":true,\"tracks\":[]\x7d".toList) := by
  refine ⟨MakeTracks_eq p, ?_, ?_⟩
  · intro hfit
    rw [MakeTracks_eq]
    apply tracksDoc_congr
    intro i tr hi
    exact trackLabel_eq_full i tr (hfit tr (List.getElem?_mem hi))
  · intro hnil
    rw [MakeTracks_eq]
    simp [tracksDoc, hnil, joinComma]

/-- C15 witness: the listing of the sample project, one named and one unnamed track. -/
theorem MakeTracks_lists_witness :
    MakeTracks sampleProject = tracksDoc fullNameLabel sampleProject
      ∧ tracksDoc fullNameLabel sampleProject
        = ("\x7b\"success\":true,\"tracks\":[\x7b\"index\":0,\"name\":\"Drums\"\x7d,"
            ++ "\x7b\"index\":1,\"name\":\"Track 2\"\x7d]\x7d").toList :=
  ⟨(MakeTracks_lists sampleProject).2.1 (by
      intro tr htr nm hnm
      simp only [sampleProject, List.mem_cons, List.mem_singleton, List.not_mem_nil, or_false] at htr
      rcases htr with rfl | rfl
      · simp only [Option.some.injEq] at hnm
        subst hnm
        exact ⟨by unfold isCString; decide, by decide⟩
      · simp at hnm),
   by decide⟩

/-- C16: for every host state in which the track at `trackIndex` exists and every
`audioPath`, `CmdLoadAudio` returns a success response exactly when the track's item
count after the insertion request is strictly greater than the count recorded before
it (the count the track had when the command arrived); otherwise it returns the error
response "Ses yüklenemedi". -/
theorem load_audio_count (env : Env) (h : Host) (trackIndex : Int) (audioPath : Str) (t : Nat)
    (htrack : GetTrack h.proj trackIndex = some t) :
    (reportsSuccess (CmdLoadAudio env trackIndex audioPath h).1 = true
        ↔ countBeforeInsert h t < countAfterInsert env audioPath h t)
      ∧ (countBeforeInsert h t < countAfterInsert env audioPath h t →
          (CmdLoadAudio env trackIndex audioPath h).1 = MakeOk "Ses yüklendi".toList)
      ∧ (¬ countBeforeInsert h t < countAfterInsert env audioPath h t →
          (CmdLoadAudio env trackIndex audioPath h).1 = MakeError "Ses yüklenemedi".toList
            ∧ reportsFailure (CmdLoadAudio env trackIndex audioPath h).1 = true)
      ∧ countBeforeInsert h t = CountTrackMediaItems h.proj t := by
  have hresp : (CmdLoadAudio env trackIndex audioPath h).1
      = if countBeforeInsert h t < countAfterInsert env audioPath h t
        then MakeOk "Ses yüklendi".toList else MakeError "Ses yüklenemedi".toList := by
    unfold CmdLoadAudio countBeforeInsert countAfterInsert loadPrepared
    simp only [htrack, gt_iff_lt]
    split <;> rfl
  rw [hresp]
  refine ⟨?_, ?_, ?_, CountTrackMediaItems_loadPrepared h.proj t t⟩
  · by_cases hlt : countBeforeInsert h t < countAfterInsert env audioPath h t
    · simp only [hlt, if_true, reportsSuccess_MakeOk]
    · simp only [hlt, if_false, reportsSuccess_MakeError, Bool.false_eq_true]
  · intro hlt
    rw [if_pos hlt]
  · intro hlt
    rw [if_neg hlt]
    exact ⟨rfl, reportsFailure_MakeError _⟩

/-- C16 witness: on the empty second track of the sample project an insertion that
adds an item succeeds, and one that adds nothing fails. -/
theorem load_audio_count_witness :
    (reportsSuccess (CmdLoadAudio sampleEnv 1 "a.wav".toList sampleHost).1 = true
        ∧ countBeforeInsert sampleHost 1 = 0
        ∧ countAfterInsert sampleEnv "a.wav".toList sampleHost 1 = 1)
      ∧ (CmdLoadAudio deafEnv 1 "a.wav".toList sampleHost).1 = MakeError "Ses yüklenemedi".toList :=
  ⟨⟨((load_audio_count sampleEnv sampleHost 1 "a.wav".toList 1 (by decide)).1).mpr (by decide),
      by decide, by decide⟩,
   ((load_audio_count deafEnv sampleHost 1 "a.wav".toList 1 (by decide)).2.2.1 (by decide)).1⟩

/-- C17: for every existing target track the extent `CmdRenderTrack` computes is the
maximum over the track's items of position + length, taken as 0 when there is no item
or no end is after time zero; when the extent is zero or negative the call fails and
the render action is not invoked (the host state comes back as it was); otherwise the
call does not fail and the render action is invoked exactly once, on a project whose
time selection is exactly [0, extent]. -/
theorem render_extent (env : Env) (h : Host) (trackIndex : Int) (outputPath : Str) (t : Nat)
    (htrack : GetTrack h.proj trackIndex = some t) :
    IsExtent (trackItems h.proj t) (renderExtent h.proj t)
      ∧ (renderExtent h.proj t ≤ 0 →
          CmdRenderTrack env trackIndex outputPath h = (noAudioText, h)
            ∧ reportsFailure (CmdRenderTrack env trackIndex outputPath h).1 = true
            ∧ (CmdRenderTrack env trackIndex outputPath h).2.renders = h.renders)
      ∧ (0 < renderExtent h.proj t →
          reportsFailure (CmdRenderTrack env trackIndex outputPath h).1 = false
            ∧ ∃ during : Project,
                (CmdRenderTrack env trackIndex outputPath h).2.renders = h.renders ++ [during]
                ∧ during.timeSelStart = 0
                ∧ during.timeSelEnd = renderExtent h.proj t) := by
  refine ⟨renderExtent_isExtent h.proj t, ?_, ?_⟩
  · intro hle
    rw [CmdRenderTrack_silent env h trackIndex outputPath t htrack hle]
    exact ⟨rfl, reportsFailure_MakeError _, rfl⟩
  · intro hpos
    rw [CmdRenderTrack_audio env h trackIndex outputPath t htrack hpos]
    exact ⟨reportsFailure_renderOkText _, _, rfl, rfl, rfl⟩

/-- C17 witness: track 0 of the three-item host ends at 5; track 0 of the silent host
has no item. -/
theorem render_extent_witness :
    (renderExtent busyTrackHost.proj 0 = 5
        ∧ ∃ during : Project,
            (CmdRenderTrack sampleEnv 0 "/tmp/out.wav".toList busyTrackHost).2.renders
              = busyTrackHost.renders ++ [during]
            ∧ during.timeSelStart = 0
            ∧ during.timeSelEnd = renderExtent busyTrackHost.proj 0)
      ∧ CmdRenderTrack sampleEnv 0 "/tmp/out.wav".toList silentHost = (noAudioText, silentHost) :=
  ⟨⟨by norm_num [renderExtent, trackItems, busyTrackHost, extentStep],
     ((render_extent sampleEnv busyTrackHost 0 "/tmp/out.wav".toList 0 (by decide)).2.2
        (by norm_num [renderExtent, trackItems, busyTrackHost, extentStep])).2⟩,
   ((render_extent sampleEnv silentHost 0 "/tmp/out.wav".toList 0 (by decide)).2.1
      (by norm_num [renderExtent, trackItems, silentHost])).1⟩

/-- C18: a dispatch cycle started with the guard clear returns with the guard clear,
whatever the files, the host state and the outcomes of the file operations are; hence
the guard is clear after every run of ticks that starts from module load. -/
theorem guard_clear_between_ticks (env : Env) :
    (∀ (io : IoOutcome) (w : World), w.g_processing = false →
        (ProcessOneCommand env io w).g_processing = false)
      ∧ ∀ (steps : List (IoOutcome × (Files → Host → Files × Host))) (fs : Files) (h : Host),
          (runTicks env steps (loadedWorld fs h)).g_processing = false := by
  refine ⟨guard_cleared env, ?_⟩
  intro steps fs h
  have hgen : ∀ (steps : List (IoOutcome × (Files → Host → Files × Host))) (w : World),
      w.g_processing = false → (runTicks env steps w).g_processing = false := by
    intro steps
    induction steps with
    | nil => intro w hw; exact hw
    | cons step rest ih =>
      intro w hw
      obtain ⟨io, outside⟩ := step
      simp only [runTicks]
      apply ih
      simp only [betweenTicks]
      exact guard_cleared env io w hw
  exact hgen steps (loadedWorld fs h) rfl

/-- C18 witness: the PING cycle, with the rename failing, then one more tick. -/
theorem guard_clear_between_ticks_witness :
    (ProcessOneCommand sampleEnv ioRenameFails pingWorld).g_processing = false
      ∧ (runTicks sampleEnv [(ioRenameFails, fun fs h => (fs, h)), (ioAllOk, fun fs h => (fs, h))]
          (loadedWorld pingWorld.files sampleHost)).g_processing = false :=
  ⟨(guard_clear_between_ticks sampleEnv).1 ioRenameFails pingWorld rfl,
   (guard_clear_between_ticks sampleEnv).2 _ pingWorld.files sampleHost⟩

/-- C19: for every host state in which the track at `trackIndex` exists, with k items,
the removal loop of `CmdClearTrack` ends after k removals of the first item; afterwards
the track has no item, every other track and the rest of the project are unchanged,
and the response is the success response (k = 0 included: nothing is removed). -/
theorem clear_track_empties (h : Host) (trackIndex : Int) (t : Nat)
    (htrack : GetTrack h.proj trackIndex = some t) :
    (CmdClearTrack trackIndex h).1 = MakeOk "Track temizlendi".toList
      ∧ reportsSuccess (CmdClearTrack trackIndex h).1 = true
      ∧ (CmdClearTrack trackIndex h).2.proj = (deleteFirst t)^[(trackItems h.proj t).length] h.proj
      ∧ trackItems (CmdClearTrack trackIndex h).2.proj t = []
      ∧ (∀ j, j ≠ t → (CmdClearTrack trackIndex h).2.proj.tracks[j]? = h.proj.tracks[j]?)
      ∧ (CmdClearTrack trackIndex h).2
          = { h with proj := updTrack h.proj t (fun tr => { tr with items := [] }) } := by
  obtain ⟨h1, h2⟩ := clearLoop_spec t _ h.proj (CountTrackMediaItems_eq h.proj t)
  have hres : CmdClearTrack trackIndex h
      = (MakeOk "Track temizlendi".toList, { h with proj := clearLoop t h.proj }) := by
    simp only [CmdClearTrack, htrack]
  rw [hres]
  refine ⟨rfl, reportsSuccess_MakeOk _, h1, ?_, ?_, by rw [h2]⟩
  · simp only [h2]
    unfold trackItems updTrack
    simp only [List.getElem?_modify_eq]
    cases h.proj.tracks[t]? <;> rfl
  · intro j hj
    simp only [h2]
    unfold updTrack
    simp only
    exact List.getElem?_modify_ne _ _ (Ne.symm hj)

/-- C19 witness: track 0 of the three-item host is emptied by three removals; the
other track keeps its item. -/
theorem clear_track_empties_witness :
    (CmdClearTrack 0 busyTrackHost).1 = MakeOk "Track temizlendi".toList
      ∧ (trackItems busyTrackHost.proj 0).length = 3
      ∧ (CmdClearTrack 0 busyTrackHost).2.proj = (deleteFirst 0)^[3] busyTrackHost.proj
      ∧ trackItems (CmdClearTrack 0 busyTrackHost).2.proj 0 = []
      ∧ (CmdClearTrack 0 busyTrackHost).2.proj.tracks[1]? = busyTrackHost.proj.tracks[1]? :=
  ⟨(clear_track_empties busyTrackHost 0 0 (by decide)).1,
   by decide,
   (clear_track_empties busyTrackHost 0 0 (by decide)).2.2.1,
   (clear_track_empties busyTrackHost 0 0 (by decide)).2.2.2.1,
   (clear_track_empties busyTrackHost 0 0 (by decide)).2.2.2.2.1 1 (by decide)⟩

/-- C20: after a RENDER_TRACK call that reaches the render action (the target track
exists and some item of it ends after time zero), with a render action that leaves the
two values alone, RENDER_BOUNDSFLAG is 2, RENDER_SETTINGS is 0 and the time selection
is [0, 0], whatever they were before the call: they are overwritten and not restored. -/
theorem render_overwrites (env : Env) (h : Host) (trackIndex : Int) (outputPath : Str) (t : Nat)
    (htrack : GetTrack h.proj trackIndex = some t)
    (haudio : ∃ it ∈ trackItems h.proj t, 0 < it.position + it.length)
    (hbounds : ∀ p, (env.renderAction p).renderBoundsFlag = p.renderBoundsFlag)
    (hsettings : ∀ p, (env.renderAction p).renderSettings = p.renderSettings) :
    (CmdRenderTrack env trackIndex outputPath h).2.proj.renderBoundsFlag = 2
      ∧ (CmdRenderTrack env trackIndex outputPath h).2.proj.renderSettings = 0
      ∧ (CmdRenderTrack env trackIndex outputPath h).2.proj.timeSelStart = 0
      ∧ (CmdRenderTrack env trackIndex outputPath h).2.proj.timeSelEnd = 0 := by
  obtain ⟨it, hit, hgt⟩ := haudio
  have hpos : 0 < renderExtent h.proj t :=
    lt_of_lt_of_le hgt (extent_fold_ge_mem _ 0 it hit)
  rw [CmdRenderTrack_audio env h trackIndex outputPath t htrack hpos]
  obtain ⟨tracks2, hloop⟩ := restoreLoop_frame (muteSnapshot h.proj.tracks.length h.proj.tracks)
    h.proj.tracks.length
    (SetProjectInfo_String
      (SetProjectInfo_String
        (env.renderAction (renderInput env trackIndex outputPath h.proj (renderExtent h.proj t)))
        .RENDER_FILE h.proj.renderFile)
      .RENDER_PATTERN h.proj.renderPattern)
  simp only [hloop]
  refine ⟨?_, ?_, rfl, rfl⟩
  · show (env.renderAction _).renderBoundsFlag = 2
    rw [hbounds]
    rfl
  · show (env.renderAction _).renderSettings = 0
    rw [hsettings]
    rfl

/-- C20 witness: the sample project had bounds flag 1, settings 3 and time selection
[1, 4] before the call. -/
theorem render_overwrites_witness :
    (sampleHost.proj.renderBoundsFlag = 1 ∧ sampleHost.proj.renderSettings = 3
        ∧ sampleHost.proj.timeSelStart = 1 ∧ sampleHost.proj.timeSelEnd = 4)
      ∧ (CmdRenderTrack sampleEnv 0 "/tmp/out.wav".toList sampleHost).2.proj.renderBoundsFlag = 2
      ∧ (CmdRenderTrack sampleEnv 0 "/tmp/out.wav".toList sampleHost).2.proj.renderSettings = 0
      ∧ (CmdRenderTrack sampleEnv 0 "/tmp/out.wav".toList sampleHost).2.proj.timeSelStart = 0
      ∧ (CmdRenderTrack sampleEnv 0 "/tmp/out.wav".toList sampleHost).2.proj.timeSelEnd = 0 :=
  ⟨⟨rfl, rfl, rfl, rfl⟩,
   render_overwrites sampleEnv sampleHost 0 "/tmp/out.wav".toList 0 (by decide)
     ⟨⟨1, 2⟩, by simp [trackItems, sampleHost, sampleProject], by norm_num⟩
     (fun _ => rfl) (fun _ => rfl)⟩

end ReaperBridge
